import Mathlib

set_option maxRecDepth 4000

/-!
Verification of the reaction-validation pipeline of `src/meneval/validation_BlastP.py`
(repository AuReMe/Meneval).

The Python module is shallowly embedded below:

* Python dictionaries are association lists (`List (String × β)`) with
  insertion-ordered iteration and key-overwrite semantics, matching CPython.
* The external BLAST engine (`NcbiblastpCommandline` / `NcbitblastnCommandline`)
  is an oracle `String → String` mapping the content of the on-disk query fasta
  file to the raw tabular output the engine prints; the subject path and the
  e-value threshold are fixed for a run and are therefore folded into the oracle.
* The iteration order of a Python `set` of strings is salt-dependent in CPython
  (per-process hash randomisation), so every place the code iterates a set of
  protein ids receives an enumeration oracle `enum : String → List String`
  (reaction ↦ chosen order of its id set); a run is one fixed oracle, and a
  valid oracle enumerates exactly the elements of the set (`EnumOk`).
* File-system effects (per-accession query fasta files, rows appended to
  `results/blast_results.tsv`) are explicit state (`RunState`), and the
  observable actions of a run (mapping calls, sequence lookups, query-file
  writes, engine invocations, the summary-file write) are recorded in an
  event trace.
-/

namespace Meneval

/-- Association-list lookup with `DecidableEq` keys; models Python `dict`
lookup `d[k]` / `k in d` (first binding wins; our dictionaries never hold
duplicate keys). -/
def lookup? {β : Type} (k : String) : List (String × β) → Option β
  | [] => none
  | p :: rest => if k = p.1 then some p.2 else lookup? k rest

/-- Python `str.split(sep)` on a single-character separator, over the
character list of the string (splits at every occurrence, keeping empty
pieces, `''.split(c) == ['']`). -/
def splitOnChar (sep : Char) : List Char → List (List Char)
  | [] => [[]]
  | c :: rest =>
    match splitOnChar sep rest with
    | [] => [[]]
    | l :: ls => if c = sep then [] :: l :: ls else (c :: l) :: ls

/-- Python `s.split(sep)` for a one-character separator, as strings. -/
def pySplit (sep : Char) (s : String) : List String :=
  (splitOnChar sep s.toList).map List.asString

/-- `uniprot_id.split(':')[1]` (validation_BlastP.py lines 189 and 236): the
accession portion of a tagged ProteinID.  Every id built by
`get_uniprot_ids_from_rxn` contains a `':'`, so index 1 always exists at the
call sites; out of range defaults to `""`. -/
def accessionOf (uniprot_id : String) : String :=
  (pySplit ':' uniprot_id).getD 1 ""

/-- Python set-insert on a list representation of a set: adds the element at
the end if it is not already present (membership is what matters; the list
order stands for one possible insertion order). -/
def setAdd (l : List String) (x : String) : List String :=
  if x ∈ l then l else l ++ [x]

/-- `set.union` with the tagged ids `f'{prot_key}:{prot_id}'`
(validation_BlastP.py line 98). -/
def setUnionTagged (acc : List String) (key : String) (ids : List String) : List String :=
  ids.foldl (fun a pid => setAdd a (key ++ ":" ++ pid)) acc

/-- The padmet specification, reduced to what `get_uniprot_ids_from_rxn`
reads from it: `dicOfNode` maps a node name to the node's `misc` dictionary,
which maps an xref key (e.g. `"UNIPROT_70"`) to a list of ids. -/
structure PadmetSpec where
  dicOfNode : List (String × List (String × List String))

/-- `prot_keys = ('UNIPROT', 'PID')` (line 85). -/
def protKeys : List String := ["UNIPROT", "PID"]

/-- `get_uniprot_ids_from_rxn` (lines 69–103): looks up the node
`rxn + '_xrefs'`; a `KeyError` (missing annotation block) yields the empty
set; otherwise collects `f'{prot_key}:{prot_id}'` for each recognised key
that is present in the misc dictionary (`suffix = '_70'`). -/
def get_uniprot_ids_from_rxn (rxn : String) (padmet_spec : PadmetSpec) : List String :=
  match lookup? (rxn ++ "_xrefs") padmet_spec.dicOfNode with
  | none => []
  | some xrefs =>
    protKeys.foldl
      (fun uniprot_set prot_key =>
        match lookup? (prot_key ++ "_70") xrefs with
        | none => uniprot_set
        | some uniprot_ids => setUnionTagged uniprot_set prot_key uniprot_ids)
      []

/-- One line of `rxn_prot.tsv` (line 135):
`f'{rxn}\t{len(pid_set)}\t{";".join(pid_set)}\n'`.  `pids` is the canonical
element list of the set (so `pids.length` is `len(pid_set)`); `enum` fixes
the iteration order the runtime uses for the join. -/
def rxnProtLine (enum : String → List String → List String)
    (rxn : String) (pids : List String) : String :=
  rxn ++ "\t" ++ toString pids.length ++ "\t" ++ String.intercalate ";" (enum rxn pids) ++ "\n"

/-- `create_rxn_prot_tsv` (lines 122–135): the full content written to
`rxn_prot.tsv` — fixed header, then one line per dictionary entry in
insertion order. -/
def create_rxn_prot_tsv (enum : String → List String → List String)
    (rxn_prot_dict : List (String × List String)) : String :=
  "Rxn ID\tNb prot IDs\tProt IDs (sep=;)\n" ++
    String.join (rxn_prot_dict.map (fun p => rxnProtLine enum p.1 p.2))

/-- `get_uniprot_seq` (lines 138–159): dictionary lookup of the **full**
`uni_id` in the `SeqIO.to_dict` fasta dictionary; a `KeyError` logs a
warning and returns `''`. -/
def get_uniprot_seq (uni_id : String) (prot_fasta : List (String × String)) : String :=
  match lookup? uni_id prot_fasta with
  | some seq => seq
  | none => ""

/-- The two BLAST engines of a run, as oracles from the content of the query
fasta file to the raw tabular output string (subject path and e-value are
fixed per run and folded in). -/
structure BlastCtx where
  blastpOut : String → String
  tblastnOut : String → String

/-- One row appended to `blast_results.tsv` (lines 205 and 250):
`'\t'.join([rxn, uniprot_id, match, method + '\n'])` where `uniprot_id` has
been rebound to the accession. -/
structure HitRow where
  rxn : String
  accession : String
  matchLine : String
  method : String
deriving DecidableEq

/-- Observable actions of a run, in order. -/
inductive Event where
  /-- One call of `get_uniprot_ids_from_rxn` (the per-reaction mapping log,
  lines 84–102); the flag records whether the xrefs node was found. -/
  | mapCall (rxn : String) (found : Bool)
  /-- One call of `get_uniprot_seq`; `found = false` is the logged warning
  branch (line 158). -/
  | seqLookup (uniId : String) (found : Bool)
  /-- Creation of `sequences/<acc>.fasta` with the given content
  (lines 195–197 / 240–242). -/
  | writeQuery (acc : String) (content : String)
  /-- One Blastp engine invocation for pair `(rxn, uniId)`; `query` is the
  file content submitted, `hit` is `blastp_output != ''` (line 201). -/
  | blastpCall (rxn : String) (uniId : String) (query : String) (hit : Bool)
  /-- One TBlastN engine invocation (line 246). -/
  | tblastnCall (rxn : String) (uniId : String) (query : String) (hit : Bool)
  /-- The single write of `rxn_prot.tsv` (line 306). -/
  | summaryWrite (content : String)
deriving DecidableEq

/-- Mutable file-system state of a run: the per-accession query fasta files
under `sequences/`, and the rows so far appended to `blast_results.tsv`. -/
structure RunState where
  seqFiles : List (String × String)
  hitRows : List HitRow
deriving DecidableEq

/-- `blastp_output.split('\n')[:-1]` (lines 203–204 / 248–249). -/
def rowsOf (out : String) : List String :=
  (pySplit '\n' out).dropLast

/-- `f'>{uniprot_id}\n{prot_seq}\n'` (line 197 / 242). -/
def queryFileContent (acc prot_seq : String) : String :=
  ">" ++ acc ++ "\n" ++ prot_seq ++ "\n"

/-- Lines 194–197 / 239–242: create `sequences/<acc>.fasta` only if it does
not already exist. -/
def ensureQueryFile (acc prot_seq : String) (files : List (String × String)) :
    List (String × String) × List Event :=
  match lookup? acc files with
  | some _ => (files, [])
  | none =>
    (files ++ [(acc, queryFileContent acc prot_seq)],
     [.writeQuery acc (queryFileContent acc prot_seq)])

/-- `run_blastp` (lines 162–207): ensure the query file, run the engine on
its content, and on non-empty output append one `HitRow` per line (minus the
trailing empty piece) and return `true`. -/
def run_blastp (ctx : BlastCtx) (prot_seq uniprot_id rxn : String) (st : RunState) :
    Bool × RunState × List Event :=
  let acc := accessionOf uniprot_id
  let fe := ensureQueryFile acc prot_seq st.seqFiles
  let q := (lookup? acc fe.1).getD ""
  let out := ctx.blastpOut q
  if out = "" then
    (false, ⟨fe.1, st.hitRows⟩, fe.2 ++ [.blastpCall rxn uniprot_id q false])
  else
    (true,
     ⟨fe.1, st.hitRows ++ (rowsOf out).map (fun m => ⟨rxn, acc, m, "Blastp"⟩)⟩,
     fe.2 ++ [.blastpCall rxn uniprot_id q true])

/-- `run_tblastn` (lines 210–252): identical to `run_blastp` with the other
engine and the `TBlastN` method tag. -/
def run_tblastn (ctx : BlastCtx) (prot_seq uniprot_id rxn : String) (st : RunState) :
    Bool × RunState × List Event :=
  let acc := accessionOf uniprot_id
  let fe := ensureQueryFile acc prot_seq st.seqFiles
  let q := (lookup? acc fe.1).getD ""
  let out := ctx.tblastnOut q
  if out = "" then
    (false, ⟨fe.1, st.hitRows⟩, fe.2 ++ [.tblastnCall rxn uniprot_id q false])
  else
    (true,
     ⟨fe.1, st.hitRows ++ (rowsOf out).map (fun m => ⟨rxn, acc, m, "TBlastN"⟩)⟩,
     fe.2 ++ [.tblastnCall rxn uniprot_id q true])

/-- Loop body for one `(rxn, uni_id)` pair (lines 315–330): resolve the
sequence, Blastp, and TBlastN only when Blastp missed and the tblastn option
is on.  Returns whether this pair produced a hit. -/
def processPair (ctx : BlastCtx) (tblastn : Bool) (prot_fasta : List (String × String))
    (rxn uni_id : String) (st : RunState) : Bool × RunState × List Event :=
  let seq := get_uniprot_seq uni_id prot_fasta
  let lookEv : Event := .seqLookup uni_id (lookup? uni_id prot_fasta).isSome
  let r1 := run_blastp ctx seq uni_id rxn st
  if r1.1 then (true, r1.2.1, lookEv :: r1.2.2)
  else if tblastn then
    let r2 := run_tblastn ctx seq uni_id rxn r1.2.1
    (r2.1, r2.2.1, lookEv :: (r1.2.2 ++ r2.2.2))
  else (false, r1.2.1, lookEv :: r1.2.2)

/-- Inner loop over the id set of one reaction (line 315), threading
`kept_rxn_set` (line 323 / 330) and the file-system state. -/
def runPairs (ctx : BlastCtx) (tblastn : Bool) (prot_fasta : List (String × String))
    (rxn : String) :
    List String → List String → RunState → List String × RunState × List Event
  | [], kept, st => (kept, st, [])
  | uni_id :: rest, kept, st =>
    let r := processPair ctx tblastn prot_fasta rxn uni_id st
    let kept1 := if r.1 then setAdd kept rxn else kept
    let rec' := runPairs ctx tblastn prot_fasta rxn rest kept1 r.2.1
    (rec'.1, rec'.2.1, r.2.2 ++ rec'.2.2)

/-- Outer loop over the reaction dictionary (line 314), each reaction's set
iterated in the order the runtime chose for it (`enum`). -/
def runRxns (ctx : BlastCtx) (tblastn : Bool) (prot_fasta : List (String × String))
    (enum : String → List String → List String) :
    List (String × List String) → List String → RunState →
      List String × RunState × List Event
  | [], kept, st => (kept, st, [])
  | entry :: rest, kept, st =>
    let r := runPairs ctx tblastn prot_fasta entry.1 (enum entry.1 entry.2) kept st
    let r' := runRxns ctx tblastn prot_fasta enum rest r.1 r.2.1
    (r'.1, r'.2.1, r.2.2 ++ r'.2.2)

/-- Python `uniprot_dict[rxn] = v`: overwrite in place if the key exists
(keeping its position, CPython semantics), else append. -/
def dictInsert (d : List (String × List String)) (k : String) (v : List String) :
    List (String × List String) :=
  if (lookup? k d).isSome then d.map (fun p => if p.1 = k then (k, v) else p)
  else d ++ [(k, v)]

/-- Lines 301–303: `uniprot_dict[rxn] = get_uniprot_ids_from_rxn(rxn, padmet_spec)`
for each `rxn` of `rxn_list` in order, with one `mapCall` event per call. -/
def buildUniprotDict (padmet_spec : PadmetSpec) (d0 : List (String × List String)) :
    List String → List (String × List String) × List Event
  | [] => (d0, [])
  | rxn :: rest =>
    let d1 := dictInsert d0 rxn (get_uniprot_ids_from_rxn rxn padmet_spec)
    let r := buildUniprotDict padmet_spec d1 rest
    (r.1, .mapCall rxn (lookup? (rxn ++ "_xrefs") padmet_spec.dicOfNode).isSome :: r.2)

/-- Result of one run of `validation_blastp`. -/
structure RunResult where
  /-- `kept_rxn_set` (the returned set), as its insertion-ordered element list. -/
  kept : List String
  /-- Final file-system state. -/
  finalState : RunState
  /-- Ordered event trace of the run. -/
  trace : List Event
  /-- Content written to `results/rxn_prot.tsv`. -/
  summary : String
  /-- `uniprot_dict` after the mapping loop. -/
  uniprotDict : List (String × List String)
  /-- `alignment_total` (line 304). -/
  alignmentTotal : Nat

/-- `validation_blastp` (lines 257–339).  `species_genome` is the optional
secondary target (`tblastn = species_genome is not None`, line 290);
`prot_fasta` is the `SeqIO.to_dict` dictionary of the reference archive;
`fs0` is the content of the `sequences/` directory left by earlier runs
(`create_dirs_and_init_result_file` truncates `blast_results.tsv` but never
clears `sequences/`).  The summary is written after the mapping loop and
before the alignment loop (lines 301–306). -/
def validation_blastp (ctx : BlastCtx) (enum : String → List String → List String)
    (rxn_list : List String) (padmet_spec : PadmetSpec)
    (prot_fasta : List (String × String)) (species_genome : Option String)
    (fs0 : List (String × String)) : RunResult :=
  let tblastn := species_genome.isSome
  let b := buildUniprotDict padmet_spec [] rxn_list
  let d := b.1
  let total := (d.map (fun p => p.2.length)).sum
  let summary := create_rxn_prot_tsv enum d
  let r := runRxns ctx tblastn prot_fasta enum d [] ⟨fs0, []⟩
  ⟨r.1, r.2.1, b.2 ++ [.summaryWrite summary] ++ r.2.2, summary, d, total⟩

/-- A valid set-enumeration oracle: for every reaction it enumerates exactly
the elements of the given set (a permutation of the canonical list). -/
def EnumOk (enum : String → List String → List String) : Prop :=
  ∀ rxn l, (enum rxn l).Perm l

/-- Well-formed engine outputs: tabular (`outfmt 6`) output is either empty
or consists of newline-terminated rows, so a non-empty output yields at
least one row after `split('\n')[:-1]`. -/
def WfOut (ctx : BlastCtx) : Prop :=
  (∀ q, ctx.blastpOut q = "" ∨ rowsOf (ctx.blastpOut q) ≠ []) ∧
  (∀ q, ctx.tblastnOut q = "" ∨ rowsOf (ctx.tblastnOut q) ≠ [])

/-! ### Basic lemmas about the dictionary model -/

theorem lookup?_append_some {β : Type} {k : String} {l1 : List (String × β)}
    (l2 : List (String × β)) {v : β} (h : lookup? k l1 = some v) :
    lookup? k (l1 ++ l2) = some v := by
  induction l1 with
  | nil => simp [lookup?] at h
  | cons p rest ih =>
    rw [lookup?] at h
    rw [List.cons_append, lookup?]
    split at h <;> rename_i hk
    · rw [if_pos hk]; exact h
    · rw [if_neg hk]; exact ih h

theorem lookup?_append_none {β : Type} {k : String} {l1 : List (String × β)}
    (l2 : List (String × β)) (h : lookup? k l1 = none) :
    lookup? k (l1 ++ l2) = lookup? k l2 := by
  induction l1 with
  | nil => simp [lookup?]
  | cons p rest ih =>
    rw [lookup?] at h
    rw [List.cons_append, lookup?]
    split at h <;> rename_i hk
    · exact absurd h (by simp)
    · rw [if_neg hk]; exact ih h

theorem lookup?_cons_self {β : Type} {k : String} {v : β} {l : List (String × β)} :
    lookup? k ((k, v) :: l) = some v := by
  simp [lookup?]

theorem lookup?_singleton_append {β : Type} {k : String} {v : β}
    {l : List (String × β)} (h : lookup? k l = none) :
    lookup? k (l ++ [(k, v)]) = some v := by
  rw [lookup?_append_none _ h, lookup?_cons_self]

/-! ### Case equations for `processPair`

Each lemma computes the loop body for one `(rxn, uni_id)` pair in one of its
eight execution cases (query file present/absent × Blastp hit/miss ×
tblastn option and outcome). -/

theorem pp_present_hit {ctx : BlastCtx} {tb : Bool} {pf : List (String × String)}
    {rxn uid : String} {st : RunState} {c : String}
    (h : lookup? (accessionOf uid) st.seqFiles = some c)
    (ho : ¬ ctx.blastpOut c = "") :
    processPair ctx tb pf rxn uid st =
      (true,
       ⟨st.seqFiles,
        st.hitRows ++ (rowsOf (ctx.blastpOut c)).map
          (fun m => ⟨rxn, accessionOf uid, m, "Blastp"⟩)⟩,
       [.seqLookup uid (lookup? uid pf).isSome,
        .blastpCall rxn uid c true]) := by
  simp [processPair, run_blastp, ensureQueryFile, h, ho]

theorem pp_present_miss_noTb {ctx : BlastCtx} {pf : List (String × String)}
    {rxn uid : String} {st : RunState} {c : String}
    (h : lookup? (accessionOf uid) st.seqFiles = some c)
    (ho : ctx.blastpOut c = "") :
    processPair ctx false pf rxn uid st =
      (false, ⟨st.seqFiles, st.hitRows⟩,
       [.seqLookup uid (lookup? uid pf).isSome,
        .blastpCall rxn uid c false]) := by
  simp [processPair, run_blastp, ensureQueryFile, h, ho]

theorem pp_present_miss_tbnHit {ctx : BlastCtx} {pf : List (String × String)}
    {rxn uid : String} {st : RunState} {c : String}
    (h : lookup? (accessionOf uid) st.seqFiles = some c)
    (ho : ctx.blastpOut c = "") (ho2 : ¬ ctx.tblastnOut c = "") :
    processPair ctx true pf rxn uid st =
      (true,
       ⟨st.seqFiles,
        st.hitRows ++ (rowsOf (ctx.tblastnOut c)).map
          (fun m => ⟨rxn, accessionOf uid, m, "TBlastN"⟩)⟩,
       [.seqLookup uid (lookup? uid pf).isSome,
        .blastpCall rxn uid c false,
        .tblastnCall rxn uid c true]) := by
  simp [processPair, run_blastp, run_tblastn, ensureQueryFile, h, ho, ho2]

theorem pp_present_miss_tbnMiss {ctx : BlastCtx} {pf : List (String × String)}
    {rxn uid : String} {st : RunState} {c : String}
    (h : lookup? (accessionOf uid) st.seqFiles = some c)
    (ho : ctx.blastpOut c = "") (ho2 : ctx.tblastnOut c = "") :
    processPair ctx true pf rxn uid st =
      (false, ⟨st.seqFiles, st.hitRows⟩,
       [.seqLookup uid (lookup? uid pf).isSome,
        .blastpCall rxn uid c false,
        .tblastnCall rxn uid c false]) := by
  simp [processPair, run_blastp, run_tblastn, ensureQueryFile, h, ho, ho2]

theorem pp_absent_hit {ctx : BlastCtx} {tb : Bool} {pf : List (String × String)}
    {rxn uid : String} {st : RunState}
    (h : lookup? (accessionOf uid) st.seqFiles = none)
    (ho : ¬ ctx.blastpOut
      (queryFileContent (accessionOf uid) (get_uniprot_seq uid pf)) = "") :
    processPair ctx tb pf rxn uid st =
      (true,
       ⟨st.seqFiles ++
          [(accessionOf uid, queryFileContent (accessionOf uid) (get_uniprot_seq uid pf))],
        st.hitRows ++ (rowsOf (ctx.blastpOut
            (queryFileContent (accessionOf uid) (get_uniprot_seq uid pf)))).map
          (fun m => ⟨rxn, accessionOf uid, m, "Blastp"⟩)⟩,
       [.seqLookup uid (lookup? uid pf).isSome,
        .writeQuery (accessionOf uid)
          (queryFileContent (accessionOf uid) (get_uniprot_seq uid pf)),
        .blastpCall rxn uid
          (queryFileContent (accessionOf uid) (get_uniprot_seq uid pf)) true]) := by
  simp [processPair, run_blastp, ensureQueryFile, h, lookup?_singleton_append h, ho]

theorem pp_absent_miss_noTb {ctx : BlastCtx} {pf : List (String × String)}
    {rxn uid : String} {st : RunState}
    (h : lookup? (accessionOf uid) st.seqFiles = none)
    (ho : ctx.blastpOut
      (queryFileContent (accessionOf uid) (get_uniprot_seq uid pf)) = "") :
    processPair ctx false pf rxn uid st =
      (false,
       ⟨st.seqFiles ++
          [(accessionOf uid, queryFileContent (accessionOf uid) (get_uniprot_seq uid pf))],
        st.hitRows⟩,
       [.seqLookup uid (lookup? uid pf).isSome,
        .writeQuery (accessionOf uid)
          (queryFileContent (accessionOf uid) (get_uniprot_seq uid pf)),
        .blastpCall rxn uid
          (queryFileContent (accessionOf uid) (get_uniprot_seq uid pf)) false]) := by
  simp [processPair, run_blastp, ensureQueryFile, h, lookup?_singleton_append h, ho]

theorem pp_absent_miss_tbnHit {ctx : BlastCtx} {pf : List (String × String)}
    {rxn uid : String} {st : RunState}
    (h : lookup? (accessionOf uid) st.seqFiles = none)
    (ho : ctx.blastpOut
      (queryFileContent (accessionOf uid) (get_uniprot_seq uid pf)) = "")
    (ho2 : ¬ ctx.tblastnOut
      (queryFileContent (accessionOf uid) (get_uniprot_seq uid pf)) = "") :
    processPair ctx true pf rxn uid st =
      (true,
       ⟨st.seqFiles ++
          [(accessionOf uid, queryFileContent (accessionOf uid) (get_uniprot_seq uid pf))],
        st.hitRows ++ (rowsOf (ctx.tblastnOut
            (queryFileContent (accessionOf uid) (get_uniprot_seq uid pf)))).map
          (fun m => ⟨rxn, accessionOf uid, m, "TBlastN"⟩)⟩,
       [.seqLookup uid (lookup? uid pf).isSome,
        .writeQuery (accessionOf uid)
          (queryFileContent (accessionOf uid) (get_uniprot_seq uid pf)),
        .blastpCall rxn uid
          (queryFileContent (accessionOf uid) (get_uniprot_seq uid pf)) false,
        .tblastnCall rxn uid
          (queryFileContent (accessionOf uid) (get_uniprot_seq uid pf)) true]) := by
  simp [processPair, run_blastp, run_tblastn, ensureQueryFile, h,
    lookup?_singleton_append h, ho, ho2]

theorem pp_absent_miss_tbnMiss {ctx : BlastCtx} {pf : List (String × String)}
    {rxn uid : String} {st : RunState}
    (h : lookup? (accessionOf uid) st.seqFiles = none)
    (ho : ctx.blastpOut
      (queryFileContent (accessionOf uid) (get_uniprot_seq uid pf)) = "")
    (ho2 : ctx.tblastnOut
      (queryFileContent (accessionOf uid) (get_uniprot_seq uid pf)) = "") :
    processPair ctx true pf rxn uid st =
      (false,
       ⟨st.seqFiles ++
          [(accessionOf uid, queryFileContent (accessionOf uid) (get_uniprot_seq uid pf))],
        st.hitRows⟩,
       [.seqLookup uid (lookup? uid pf).isSome,
        .writeQuery (accessionOf uid)
          (queryFileContent (accessionOf uid) (get_uniprot_seq uid pf)),
        .blastpCall rxn uid
          (queryFileContent (accessionOf uid) (get_uniprot_seq uid pf)) false,
        .tblastnCall rxn uid
          (queryFileContent (accessionOf uid) (get_uniprot_seq uid pf)) false]) := by
  simp [processPair, run_blastp, run_tblastn, ensureQueryFile, h,
    lookup?_singleton_append h, ho, ho2]

/-- Master specification of the loop body: every execution of `processPair`
resolves one query content `q` (the content of the accession's query file),
runs Blastp with outcome `h1`, optionally runs TBlastN with outcome `h2`,
and appends `new` hit rows, with the event list in the stated shape. -/
theorem processPair_spec {ctx : BlastCtx} {tb : Bool} {pf : List (String × String)}
    {rxn uid : String} {st : RunState} {hit : Bool} {st' : RunState} {evs : List Event}
    (hrun : processPair ctx tb pf rxn uid st = (hit, st', evs)) :
    ∃ (q : String) (h1 h2 : Bool) (wEvs : List Event) (new : List HitRow),
      st'.hitRows = st.hitRows ++ new ∧
      lookup? (accessionOf uid) st'.seqFiles = some q ∧
      evs = .seqLookup uid (lookup? uid pf).isSome ::
        (wEvs ++ .blastpCall rxn uid q h1 ::
          (if h1 then [] else if tb then [.tblastnCall rxn uid q h2] else [])) ∧
      ((lookup? (accessionOf uid) st.seqFiles = some q ∧ st'.seqFiles = st.seqFiles ∧
          wEvs = []) ∨
       (lookup? (accessionOf uid) st.seqFiles = none ∧
        q = queryFileContent (accessionOf uid) (get_uniprot_seq uid pf) ∧
        st'.seqFiles = st.seqFiles ++ [(accessionOf uid, q)] ∧
        wEvs = [.writeQuery (accessionOf uid) q])) ∧
      (h1 = true ↔ ¬ ctx.blastpOut q = "") ∧
      (h1 = false → tb = true → (h2 = true ↔ ¬ ctx.tblastnOut q = "")) ∧
      hit = (h1 || (tb && h2)) ∧
      (∀ row ∈ new, row.rxn = rxn) ∧
      (hit = false → new = []) ∧
      (h1 = true →
        new = (rowsOf (ctx.blastpOut q)).map
          (fun m => ⟨rxn, accessionOf uid, m, "Blastp"⟩)) ∧
      (h1 = false → h2 = true → tb = true →
        new = (rowsOf (ctx.tblastnOut q)).map
          (fun m => ⟨rxn, accessionOf uid, m, "TBlastN"⟩)) := by
  cases hpres : lookup? (accessionOf uid) st.seqFiles with
  | some c =>
    by_cases ho : ctx.blastpOut c = ""
    · cases tb with
      | false =>
        rw [pp_present_miss_noTb hpres ho] at hrun
        simp only [Prod.mk.injEq] at hrun
        obtain ⟨rfl, rfl, rfl⟩ := hrun
        refine ⟨c, false, false, [], [], by simp, hpres, by simp,
          Or.inl ⟨rfl, rfl, rfl⟩, by simp [ho], by simp, by simp, by simp,
          by simp, by simp, by simp⟩
      | true =>
        by_cases ho2 : ctx.tblastnOut c = ""
        · rw [pp_present_miss_tbnMiss hpres ho ho2] at hrun
          simp only [Prod.mk.injEq] at hrun
          obtain ⟨rfl, rfl, rfl⟩ := hrun
          refine ⟨c, false, false, [], [], by simp, hpres, by simp,
            Or.inl ⟨rfl, rfl, rfl⟩, by simp [ho], by simp [ho2], by simp,
            by simp, by simp, by simp, by simp⟩
        · rw [pp_present_miss_tbnHit hpres ho ho2] at hrun
          simp only [Prod.mk.injEq] at hrun
          obtain ⟨rfl, rfl, rfl⟩ := hrun
          refine ⟨c, false, true, [],
            (rowsOf (ctx.tblastnOut c)).map
              (fun m => ⟨rxn, accessionOf uid, m, "TBlastN"⟩),
            rfl, hpres, by simp, Or.inl ⟨rfl, rfl, rfl⟩, by simp [ho],
            by simp [ho2], by simp, ?_, by simp, by simp, by simp⟩
          intro row hrow
          simp only [List.mem_map] at hrow
          obtain ⟨m, _, rfl⟩ := hrow
          rfl
    · rw [pp_present_hit hpres ho] at hrun
      simp only [Prod.mk.injEq] at hrun
      obtain ⟨rfl, rfl, rfl⟩ := hrun
      refine ⟨c, true, false, [],
        (rowsOf (ctx.blastpOut c)).map
          (fun m => ⟨rxn, accessionOf uid, m, "Blastp"⟩),
        rfl, hpres, by simp, Or.inl ⟨rfl, rfl, rfl⟩, by simp [ho],
        by simp, by simp, ?_, by simp, by simp, by simp⟩
      intro row hrow
      simp only [List.mem_map] at hrow
      obtain ⟨m, _, rfl⟩ := hrow
      rfl
  | none =>
    have hlk := lookup?_singleton_append
      (v := queryFileContent (accessionOf uid) (get_uniprot_seq uid pf)) hpres
    by_cases ho : ctx.blastpOut
        (queryFileContent (accessionOf uid) (get_uniprot_seq uid pf)) = ""
    · cases tb with
      | false =>
        rw [pp_absent_miss_noTb hpres ho] at hrun
        simp only [Prod.mk.injEq] at hrun
        obtain ⟨rfl, rfl, rfl⟩ := hrun
        refine ⟨queryFileContent (accessionOf uid) (get_uniprot_seq uid pf),
          false, false,
          [.writeQuery (accessionOf uid)
            (queryFileContent (accessionOf uid) (get_uniprot_seq uid pf))], [],
          by simp, hlk, by simp, Or.inr ⟨rfl, rfl, rfl, rfl⟩, by simp [ho],
          by simp, by simp, by simp, by simp, by simp, by simp⟩
      | true =>
        by_cases ho2 : ctx.tblastnOut
            (queryFileContent (accessionOf uid) (get_uniprot_seq uid pf)) = ""
        · rw [pp_absent_miss_tbnMiss hpres ho ho2] at hrun
          simp only [Prod.mk.injEq] at hrun
          obtain ⟨rfl, rfl, rfl⟩ := hrun
          refine ⟨queryFileContent (accessionOf uid) (get_uniprot_seq uid pf),
            false, false,
            [.writeQuery (accessionOf uid)
              (queryFileContent (accessionOf uid) (get_uniprot_seq uid pf))], [],
            by simp, hlk, by simp, Or.inr ⟨rfl, rfl, rfl, rfl⟩, by simp [ho],
            by simp [ho2], by simp, by simp, by simp, by simp, by simp⟩
        · rw [pp_absent_miss_tbnHit hpres ho ho2] at hrun
          simp only [Prod.mk.injEq] at hrun
          obtain ⟨rfl, rfl, rfl⟩ := hrun
          refine ⟨queryFileContent (accessionOf uid) (get_uniprot_seq uid pf),
            false, true,
            [.writeQuery (accessionOf uid)
              (queryFileContent (accessionOf uid) (get_uniprot_seq uid pf))],
            (rowsOf (ctx.tblastnOut
                (queryFileContent (accessionOf uid) (get_uniprot_seq uid pf)))).map
              (fun m => ⟨rxn, accessionOf uid, m, "TBlastN"⟩),
            rfl, hlk, by simp, Or.inr ⟨rfl, rfl, rfl, rfl⟩, by simp [ho],
            by simp [ho2], by simp, ?_, by simp, by simp, by simp⟩
          intro row hrow
          simp only [List.mem_map] at hrow
          obtain ⟨m, _, rfl⟩ := hrow
          rfl
    · rw [pp_absent_hit hpres ho] at hrun
      simp only [Prod.mk.injEq] at hrun
      obtain ⟨rfl, rfl, rfl⟩ := hrun
      refine ⟨queryFileContent (accessionOf uid) (get_uniprot_seq uid pf),
        true, false,
        [.writeQuery (accessionOf uid)
          (queryFileContent (accessionOf uid) (get_uniprot_seq uid pf))],
        (rowsOf (ctx.blastpOut
            (queryFileContent (accessionOf uid) (get_uniprot_seq uid pf)))).map
          (fun m => ⟨rxn, accessionOf uid, m, "Blastp"⟩),
        rfl, hlk, by simp, Or.inr ⟨rfl, rfl, rfl, rfl⟩, by simp [ho],
        by simp, by simp, ?_, by simp, by simp, by simp⟩
      intro row hrow
      simp only [List.mem_map] at hrow
      obtain ⟨m, _, rfl⟩ := hrow
      rfl

/-! ### Generic helpers -/

theorem setAdd_mem {l : List String} {x y : String} :
    x ∈ setAdd l y ↔ x ∈ l ∨ x = y := by
  unfold setAdd
  split <;> rename_i h
  · constructor
    · exact Or.inl
    · rintro (hx | rfl)
      · exact hx
      · exact h
  · simp [List.mem_append]

theorem buildUniprotDict_events (ps : PadmetSpec) :
    ∀ (l : List String) (d0 : List (String × List String)),
      (buildUniprotDict ps d0 l).2 =
        l.map (fun rxn => .mapCall rxn (lookup? (rxn ++ "_xrefs") ps.dicOfNode).isSome) := by
  intro l
  induction l with
  | nil => intro d0; rfl
  | cons rxn rest ih => intro d0; simp only [buildUniprotDict, ih, List.map_cons]

/-! ### Per-pair consequences of `processPair_spec` -/

/-- Rows appended by one pair: non-empty exactly when the pair hit (under
well-formed engine output), and always tagged with this pair's reaction. -/
theorem processPair_rows {ctx : BlastCtx} {tb : Bool} {pf : List (String × String)}
    {rxn uid : String} {st : RunState} {hit : Bool} {st' : RunState} {evs : List Event}
    (hwf : WfOut ctx) (hrun : processPair ctx tb pf rxn uid st = (hit, st', evs)) :
    ∃ new, st'.hitRows = st.hitRows ++ new ∧
      ∀ r, ((∃ row ∈ new, HitRow.rxn row = r) ↔ (hit = true ∧ r = rxn)) := by
  obtain ⟨q, h1, h2, wEvs, new, hrows, hlkf, hevs, hfiles, hh1, hh2, hhit, hall,
    hmiss, hb, ht⟩ := processPair_spec hrun
  refine ⟨new, hrows, fun r => ⟨?_, ?_⟩⟩
  · rintro ⟨row, hrowmem, rfl⟩
    refine ⟨?_, hall row hrowmem⟩
    cases hc : hit with
    | true => rfl
    | false =>
      rw [hmiss hc] at hrowmem
      exact absurd hrowmem (List.not_mem_nil row)
  · rintro ⟨hhit1, rfl⟩
    rw [hhit1] at hhit
    cases hcase : h1 with
    | true =>
      rw [hb hcase]
      have hout : ¬ ctx.blastpOut q = "" := hh1.mp hcase
      have hne : rowsOf (ctx.blastpOut q) ≠ [] := (hwf.1 q).resolve_left hout
      obtain ⟨m, hm⟩ := List.exists_mem_of_ne_nil _ hne
      exact ⟨⟨r, accessionOf uid, m, "Blastp"⟩, List.mem_map_of_mem _ hm, rfl⟩
    | false =>
      rw [hcase] at hhit
      simp only [Bool.false_or] at hhit
      have htb : tb = true := by
        cases htb : tb with
        | true => rfl
        | false => rw [htb] at hhit; simp at hhit
      have hh2t : h2 = true := by
        cases hh2t : h2 with
        | true => rfl
        | false => rw [htb, hh2t] at hhit; simp at hhit
      rw [ht hcase hh2t htb]
      have hout : ¬ ctx.tblastnOut q = "" := (hh2 hcase htb).mp hh2t
      have hne : rowsOf (ctx.tblastnOut q) ≠ [] := (hwf.2 q).resolve_left hout
      obtain ⟨m, hm⟩ := List.exists_mem_of_ne_nil _ hne
      exact ⟨⟨r, accessionOf uid, m, "TBlastN"⟩, List.mem_map_of_mem _ hm, rfl⟩

/-- A hit-flagged engine-call event appears among one pair's events exactly
when the pair hit; its reaction is the pair's reaction. -/
theorem processPair_trueCall {ctx : BlastCtx} {tb : Bool} {pf : List (String × String)}
    {rxn uid : String} {st : RunState} {hit : Bool} {st' : RunState} {evs : List Event}
    (hrun : processPair ctx tb pf rxn uid st = (hit, st', evs)) :
    ∀ r, ((∃ u q, Event.blastpCall r u q true ∈ evs ∨ Event.tblastnCall r u q true ∈ evs) ↔
      (hit = true ∧ r = rxn)) := by
  obtain ⟨q, h1, h2, wEvs, new, hrows, hlkf, hevs, hfiles, hh1, hh2, hhit, hall,
    hmiss, hb, ht⟩ := processPair_spec hrun
  have hw : wEvs = [] ∨ wEvs = [.writeQuery (accessionOf uid) q] := by
    rcases hfiles with ⟨_, _, hw⟩ | ⟨_, _, _, hw⟩
    · exact Or.inl hw
    · exact Or.inr hw
  intro r
  subst hevs
  subst hhit
  rcases hw with hw | hw <;> subst hw <;>
    cases hc1 : h1 <;> cases htb : tb <;> cases hc2 : h2 <;>
    simp [List.mem_append, and_comm, eq_comm]

/-! ### Claim C1: the retained set versus the hits table -/

/-- Some engine invocation for reaction `r` in `tr` returned non-empty
output (`hit = true` records `output != ''`). -/
def trueCallFor (r : String) (tr : List Event) : Prop :=
  ∃ u q, Event.blastpCall r u q true ∈ tr ∨ Event.tblastnCall r u q true ∈ tr

theorem trueCallFor_append {r : String} {t1 t2 : List Event} :
    trueCallFor r (t1 ++ t2) ↔ trueCallFor r t1 ∨ trueCallFor r t2 := by
  unfold trueCallFor
  constructor
  · rintro ⟨u, q, h | h⟩ <;> rw [List.mem_append] at h <;>
      rcases h with h | h
    · exact Or.inl ⟨u, q, Or.inl h⟩
    · exact Or.inr ⟨u, q, Or.inl h⟩
    · exact Or.inl ⟨u, q, Or.inr h⟩
    · exact Or.inr ⟨u, q, Or.inr h⟩
  · rintro (⟨u, q, h | h⟩ | ⟨u, q, h | h⟩)
    · exact ⟨u, q, Or.inl (List.mem_append.mpr (Or.inl h))⟩
    · exact ⟨u, q, Or.inr (List.mem_append.mpr (Or.inl h))⟩
    · exact ⟨u, q, Or.inl (List.mem_append.mpr (Or.inr h))⟩
    · exact ⟨u, q, Or.inr (List.mem_append.mpr (Or.inr h))⟩

theorem processPair_trueCallFor {ctx : BlastCtx} {tb : Bool} {pf : List (String × String)}
    {rxn uid : String} {st : RunState} {hit : Bool} {st' : RunState} {evs : List Event}
    (hrun : processPair ctx tb pf rxn uid st = (hit, st', evs)) (r : String) :
    trueCallFor r evs ↔ (hit = true ∧ r = rxn) :=
  processPair_trueCall hrun r

theorem runPairs_keptRows {ctx : BlastCtx} {tb : Bool} {pf : List (String × String)}
    {rxn : String} (hwf : WfOut ctx) :
    ∀ (uids kept : List String) (st : RunState),
      (∀ r, r ∈ kept ↔ ∃ row ∈ st.hitRows, HitRow.rxn row = r) →
      ∀ r, r ∈ (runPairs ctx tb pf rxn uids kept st).1 ↔
        ∃ row ∈ (runPairs ctx tb pf rxn uids kept st).2.1.hitRows, HitRow.rxn row = r := by
  intro uids
  induction uids with
  | nil => intro kept st hInv r; simpa [runPairs] using hInv r
  | cons uid rest ih =>
    intro kept st hInv r
    rcases hpp : processPair ctx tb pf rxn uid st with ⟨hit, st1, evs1⟩
    obtain ⟨new, hrows, hchar⟩ := processPair_rows hwf hpp
    simp only [runPairs, hpp]
    apply ih
    intro r'
    cases hhit : hit with
    | true =>
      simp only [hhit, if_true, setAdd_mem, hrows, List.mem_append]
      constructor
      · rintro (hr | rfl)
        · obtain ⟨row, hm, he⟩ := (hInv r').mp hr
          exact ⟨row, Or.inl hm, he⟩
        · obtain ⟨row, hm, he⟩ := (hchar r').mpr ⟨hhit, rfl⟩
          exact ⟨row, Or.inr hm, he⟩
      · rintro ⟨row, hm | hm, he⟩
        · exact Or.inl ((hInv r').mpr ⟨row, hm, he⟩)
        · exact Or.inr ((hchar r').mp ⟨row, hm, he⟩).2
    | false =>
      simp only [hhit, if_false, hrows, List.mem_append]
      constructor
      · intro hr
        obtain ⟨row, hm, he⟩ := (hInv r').mp hr
        exact ⟨row, Or.inl hm, he⟩
      · rintro ⟨row, hm | hm, he⟩
        · exact (hInv r').mpr ⟨row, hm, he⟩
        · have hc := ((hchar r').mp ⟨row, hm, he⟩).1
          rw [hhit] at hc
          exact absurd hc (by simp)

theorem runRxns_keptRows {ctx : BlastCtx} {tb : Bool} {pf : List (String × String)}
    {enum : String → List String → List String} (hwf : WfOut ctx) :
    ∀ (d : List (String × List String)) (kept : List String) (st : RunState),
      (∀ r, r ∈ kept ↔ ∃ row ∈ st.hitRows, HitRow.rxn row = r) →
      ∀ r, r ∈ (runRxns ctx tb pf enum d kept st).1 ↔
        ∃ row ∈ (runRxns ctx tb pf enum d kept st).2.1.hitRows, HitRow.rxn row = r := by
  intro d
  induction d with
  | nil => intro kept st hInv r; simpa [runRxns] using hInv r
  | cons entry rest ih =>
    intro kept st hInv r
    simp only [runRxns]
    exact ih _ _ (runPairs_keptRows hwf _ _ _ hInv) r

theorem runPairs_keptTrue {ctx : BlastCtx} {tb : Bool} {pf : List (String × String)}
    {rxn : String} :
    ∀ (uids kept : List String) (st : RunState) (T0 : List Event),
      (∀ r, r ∈ kept ↔ trueCallFor r T0) →
      ∀ r, r ∈ (runPairs ctx tb pf rxn uids kept st).1 ↔
        trueCallFor r (T0 ++ (runPairs ctx tb pf rxn uids kept st).2.2) := by
  intro uids
  induction uids with
  | nil => intro kept st T0 hInv r; simpa [runPairs] using hInv r
  | cons uid rest ih =>
    intro kept st T0 hInv r
    rcases hpp : processPair ctx tb pf rxn uid st with ⟨hit, st1, evs1⟩
    simp only [runPairs, hpp]
    rw [show T0 ++ (evs1 ++ (runPairs ctx tb pf rxn rest
        (if hit then setAdd kept rxn else kept) st1).2.2) =
      (T0 ++ evs1) ++ (runPairs ctx tb pf rxn rest
        (if hit then setAdd kept rxn else kept) st1).2.2 from (List.append_assoc _ _ _).symm]
    apply ih
    intro r'
    rw [trueCallFor_append]
    cases hhit : hit with
    | true =>
      simp only [hhit, if_true, setAdd_mem]
      rw [hInv r', processPair_trueCallFor hpp r']
      simp [hhit]
    | false =>
      rw [if_neg (by simp : ¬ (false = true))]
      rw [hInv r']
      have hnot : ¬ trueCallFor r' evs1 := by
        rw [processPair_trueCallFor hpp r']
        simp [hhit]
      simp [hnot]

theorem runRxns_keptTrue {ctx : BlastCtx} {tb : Bool} {pf : List (String × String)}
    {enum : String → List String → List String} :
    ∀ (d : List (String × List String)) (kept : List String) (st : RunState)
      (T0 : List Event),
      (∀ r, r ∈ kept ↔ trueCallFor r T0) →
      ∀ r, r ∈ (runRxns ctx tb pf enum d kept st).1 ↔
        trueCallFor r (T0 ++ (runRxns ctx tb pf enum d kept st).2.2) := by
  intro d
  induction d with
  | nil => intro kept st T0 hInv r; simpa [runRxns] using hInv r
  | cons entry rest ih =>
    intro kept st T0 hInv r
    rcases hrp : runPairs ctx tb pf entry.1 (enum entry.1 entry.2) kept st
      with ⟨kept1, st1, evs1⟩
    simp only [runRxns, hrp]
    rw [show T0 ++ (evs1 ++ (runRxns ctx tb pf enum rest kept1 st1).2.2) =
      (T0 ++ evs1) ++ (runRxns ctx tb pf enum rest kept1 st1).2.2
      from (List.append_assoc _ _ _).symm]
    apply ih
    intro r'
    have := @runPairs_keptTrue ctx tb pf entry.1
      (enum entry.1 entry.2) kept st T0 hInv r'
    rw [hrp] at this
    exact this

/-! ### Projection equations for `validation_blastp` -/

theorem validation_blastp_kept (ctx : BlastCtx) (enum : String → List String → List String)
    (rxn_list : List String) (ps : PadmetSpec) (pf : List (String × String))
    (genome : Option String) (fs0 : List (String × String)) :
    (validation_blastp ctx enum rxn_list ps pf genome fs0).kept =
      (runRxns ctx genome.isSome pf enum (buildUniprotDict ps [] rxn_list).1 []
        ⟨fs0, []⟩).1 := rfl

theorem validation_blastp_finalState (ctx : BlastCtx)
    (enum : String → List String → List String) (rxn_list : List String) (ps : PadmetSpec)
    (pf : List (String × String)) (genome : Option String) (fs0 : List (String × String)) :
    (validation_blastp ctx enum rxn_list ps pf genome fs0).finalState =
      (runRxns ctx genome.isSome pf enum (buildUniprotDict ps [] rxn_list).1 []
        ⟨fs0, []⟩).2.1 := rfl

theorem validation_blastp_trace (ctx : BlastCtx)
    (enum : String → List String → List String) (rxn_list : List String) (ps : PadmetSpec)
    (pf : List (String × String)) (genome : Option String) (fs0 : List (String × String)) :
    (validation_blastp ctx enum rxn_list ps pf genome fs0).trace =
      ((buildUniprotDict ps [] rxn_list).2 ++
        [.summaryWrite (create_rxn_prot_tsv enum (buildUniprotDict ps [] rxn_list).1)]) ++
      (runRxns ctx genome.isSome pf enum (buildUniprotDict ps [] rxn_list).1 []
        ⟨fs0, []⟩).2.2 := rfl

theorem validation_blastp_summary (ctx : BlastCtx)
    (enum : String → List String → List String) (rxn_list : List String) (ps : PadmetSpec)
    (pf : List (String × String)) (genome : Option String) (fs0 : List (String × String)) :
    (validation_blastp ctx enum rxn_list ps pf genome fs0).summary =
      create_rxn_prot_tsv enum (buildUniprotDict ps [] rxn_list).1 := rfl

theorem validation_blastp_dict (ctx : BlastCtx)
    (enum : String → List String → List String) (rxn_list : List String) (ps : PadmetSpec)
    (pf : List (String × String)) (genome : Option String) (fs0 : List (String × String)) :
    (validation_blastp ctx enum rxn_list ps pf genome fs0).uniprotDict =
      (buildUniprotDict ps [] rxn_list).1 := rfl

theorem validation_blastp_total (ctx : BlastCtx)
    (enum : String → List String → List String) (rxn_list : List String) (ps : PadmetSpec)
    (pf : List (String × String)) (genome : Option String) (fs0 : List (String × String)) :
    (validation_blastp ctx enum rxn_list ps pf genome fs0).alignmentTotal =
      ((buildUniprotDict ps [] rxn_list).1.map (fun p => p.2.length)).sum := rfl

/-- The mapping-phase events and the summary write contain no engine-call
events. -/
theorem trueCallFor_prefix_false (ps : PadmetSpec) (rxn_list : List String) (c : String)
    (r : String) :
    ¬ trueCallFor r ((buildUniprotDict ps [] rxn_list).2 ++ [.summaryWrite c]) := by
  rw [buildUniprotDict_events]
  rintro ⟨u, q, h | h⟩ <;> rw [List.mem_append] at h <;> rcases h with h | h <;>
    simp [List.mem_map] at h

/-- **C1.** The set returned by `validation_blastp` is exactly the set of
reactions owning at least one row appended to the hits table
(`blast_results.tsv`) by the Blastp or TBlastN stage; equivalently, exactly
the set of reactions for which some engine invocation returned non-empty
output (`hit = true` in a call event records `output != ''`, which is
exactly when rows are written).  The hypothesis `WfOut` states that the
engine's tabular output is newline-terminated, so that non-empty output
contributes at least one row line. -/
theorem C1_kept_iff_rows (ctx : BlastCtx) (enum : String → List String → List String)
    (rxn_list : List String) (ps : PadmetSpec) (pf : List (String × String))
    (genome : Option String) (fs0 : List (String × String)) (hwf : WfOut ctx) :
    ∀ rxn,
      (rxn ∈ (validation_blastp ctx enum rxn_list ps pf genome fs0).kept ↔
        ∃ row ∈ (validation_blastp ctx enum rxn_list ps pf genome fs0).finalState.hitRows,
          HitRow.rxn row = rxn) ∧
      (rxn ∈ (validation_blastp ctx enum rxn_list ps pf genome fs0).kept ↔
        trueCallFor rxn (validation_blastp ctx enum rxn_list ps pf genome fs0).trace) := by
  intro rxn
  constructor
  · rw [validation_blastp_kept, validation_blastp_finalState]
    exact runRxns_keptRows hwf _ [] ⟨fs0, []⟩ (by simp) rxn
  · rw [validation_blastp_kept, validation_blastp_trace]
    exact runRxns_keptTrue _ [] ⟨fs0, []⟩ _
      (fun r => by simp [trueCallFor_prefix_false ps rxn_list _ r]) rxn

/-- Concrete run for witnesses: one reaction mapped to one protein id whose
sequence exists; the Blastp engine always reports one tabular row. -/
def ctxHit : BlastCtx := ⟨fun _ => "P1\t1e-50\t100\t99.0\t50\n", fun _ => ""⟩

/-- Identity enumeration oracle (a run whose set order equals insertion
order). -/
def enumId : String → List String → List String := fun _ l => l

/-- Padmet store for witnesses. -/
def psW : PadmetSpec := ⟨[("R1_xrefs", [("UNIPROT_70", ["P1"])])]⟩

/-- Reference-archive dictionary for witnesses. -/
def pfW : List (String × String) := [("UNIPROT:P1", "MKT")]

/-- Witness for C1 at a concrete run where the hypothesis holds. -/
theorem C1_kept_iff_rows_witness :
    WfOut ctxHit ∧
    (("R1" ∈ (validation_blastp ctxHit enumId ["R1"] psW pfW none []).kept ↔
      ∃ row ∈ (validation_blastp ctxHit enumId ["R1"] psW pfW none []).finalState.hitRows,
        HitRow.rxn row = "R1") ∧
     ("R1" ∈ (validation_blastp ctxHit enumId ["R1"] psW pfW none []).kept ↔
      trueCallFor "R1" (validation_blastp ctxHit enumId ["R1"] psW pfW none []).trace)) :=
  ⟨⟨fun _ => Or.inr (show rowsOf "P1\t1e-50\t100\t99.0\t50\n" ≠ [] by decide), fun _ => Or.inl rfl⟩,
   C1_kept_iff_rows ctxHit enumId ["R1"] psW pfW none []
     ⟨fun _ => Or.inr (show rowsOf "P1\t1e-50\t100\t99.0\t50\n" ≠ [] by decide), fun _ => Or.inl rfl⟩ "R1"⟩

/-! ### Shape of the reaction dictionary (insertion-ordered, deduplicated) -/

/-- First-occurrence deduplication, the key evolution of a Python dict fed
by repeated assignments. -/
def insertionDedup (l : List String) : List String := l.foldl setAdd []

theorem foldl_preserve {α β : Type} (P : α → Prop) (step : α → β → α)
    (h : ∀ a b, P a → P (step a b)) : ∀ (l : List β) (a : α), P a → P (l.foldl step a) := by
  intro l
  induction l with
  | nil => intro a ha; exact ha
  | cons b rest ih => intro a ha; exact ih (step a b) (h a b ha)

theorem setAdd_nodup {l : List String} {x : String} (h : l.Nodup) : (setAdd l x).Nodup := by
  unfold setAdd
  split <;> rename_i hmem
  · exact h
  · simp [List.nodup_append, h, hmem]

theorem foldl_setAdd_nodup (l ks : List String) (h : ks.Nodup) :
    (l.foldl setAdd ks).Nodup :=
  foldl_preserve List.Nodup setAdd (fun _ _ ha => setAdd_nodup ha) l ks h

theorem foldl_setAdd_mem (x : String) :
    ∀ (l ks : List String), x ∈ l.foldl setAdd ks ↔ x ∈ ks ∨ x ∈ l := by
  intro l
  induction l with
  | nil => intro ks; simp
  | cons r rest ih =>
    intro ks
    rw [List.foldl_cons, ih, setAdd_mem]
    simp [or_assoc, List.mem_cons, eq_comm]

theorem insertionDedup_nodup (l : List String) : (insertionDedup l).Nodup :=
  foldl_setAdd_nodup l [] List.nodup_nil

theorem insertionDedup_mem {x : String} {l : List String} :
    x ∈ insertionDedup l ↔ x ∈ l := by
  unfold insertionDedup
  rw [foldl_setAdd_mem]
  simp

theorem setUnionTagged_nodup {acc : List String} {key : String} {ids : List String}
    (h : acc.Nodup) : (setUnionTagged acc key ids).Nodup :=
  foldl_preserve List.Nodup _ (fun _ _ ha => setAdd_nodup ha) ids acc h

/-- The set of ids mapped to a reaction has no duplicates (it is a Python
set). -/
theorem get_uniprot_ids_from_rxn_nodup (rxn : String) (ps : PadmetSpec) :
    (get_uniprot_ids_from_rxn rxn ps).Nodup := by
  unfold get_uniprot_ids_from_rxn
  cases lookup? (rxn ++ "_xrefs") ps.dicOfNode with
  | none => exact List.nodup_nil
  | some xrefs =>
    refine foldl_preserve List.Nodup _ ?_ protKeys [] List.nodup_nil
    intro a key ha
    cases lookup? (key ++ "_70") xrefs with
    | none => exact ha
    | some ids => exact setUnionTagged_nodup ha

theorem lookup?_graph (f : String → List String) :
    ∀ (ks : List String) (k : String),
      lookup? k (ks.map fun r => (r, f r)) = if k ∈ ks then some (f k) else none := by
  intro ks
  induction ks with
  | nil => intro k; simp [lookup?]
  | cons r rest ih =>
    intro k
    rw [List.map_cons, lookup?]
    by_cases hk : k = r
    · subst hk; simp
    · rw [if_neg hk, ih]
      simp [List.mem_cons, hk]

theorem dictInsert_graph_mem (f : String → List String) {ks : List String} {k : String}
    (hmem : k ∈ ks) :
    dictInsert (ks.map fun r => (r, f r)) k (f k) = ks.map fun r => (r, f r) := by
  unfold dictInsert
  rw [lookup?_graph f ks k, if_pos hmem]
  simp only [Option.isSome_some, if_true, List.map_map]
  refine List.map_congr_left ?_
  intro a _
  by_cases ha : a = k
  · subst ha; simp
  · simp [Function.comp, ha]

theorem dictInsert_graph_notMem (f : String → List String) {ks : List String} {k : String}
    (hmem : k ∉ ks) :
    dictInsert (ks.map fun r => (r, f r)) k (f k) = (ks ++ [k]).map fun r => (r, f r) := by
  unfold dictInsert
  rw [lookup?_graph f ks k, if_neg hmem]
  simp

/-- The dictionary built by the mapping loop is the graph of
`get_uniprot_ids_from_rxn` over the first-occurrence deduplication of the
processed reactions. -/
theorem buildUniprotDict_shape (ps : PadmetSpec) :
    ∀ (l ks : List String),
      (buildUniprotDict ps (ks.map fun r => (r, get_uniprot_ids_from_rxn r ps)) l).1 =
        (l.foldl setAdd ks).map (fun r => (r, get_uniprot_ids_from_rxn r ps)) := by
  intro l
  induction l with
  | nil => intro ks; rfl
  | cons rxn rest ih =>
    intro ks
    rw [List.foldl_cons]
    have hstep : dictInsert (ks.map fun r => (r, get_uniprot_ids_from_rxn r ps)) rxn
        (get_uniprot_ids_from_rxn rxn ps) =
        (setAdd ks rxn).map fun r => (r, get_uniprot_ids_from_rxn r ps) := by
      by_cases hmem : rxn ∈ ks
      · rw [dictInsert_graph_mem _ hmem]
        unfold setAdd
        rw [if_pos hmem]
      · rw [dictInsert_graph_notMem _ hmem]
        unfold setAdd
        rw [if_neg hmem]
    simp only [buildUniprotDict, hstep]
    exact ih (setAdd ks rxn)

theorem buildUniprotDict_eq (ps : PadmetSpec) (l : List String) :
    (buildUniprotDict ps [] l).1 =
      (insertionDedup l).map (fun r => (r, get_uniprot_ids_from_rxn r ps)) :=
  buildUniprotDict_shape ps l []

theorem buildUniprotDict_keys_nodup (ps : PadmetSpec) (l : List String) :
    ((buildUniprotDict ps [] l).1.map Prod.fst).Nodup := by
  rw [buildUniprotDict_eq, List.map_map]
  have : (Prod.fst ∘ fun r => (r, get_uniprot_ids_from_rxn r ps)) = id := rfl
  rw [this, List.map_id]
  exact insertionDedup_nodup l

theorem buildUniprotDict_entry_mem {ps : PadmetSpec} {l : List String} {rxn : String}
    {pids : List String} (h : (rxn, pids) ∈ (buildUniprotDict ps [] l).1) :
    pids = get_uniprot_ids_from_rxn rxn ps ∧ rxn ∈ l := by
  rw [buildUniprotDict_eq] at h
  rw [List.mem_map] at h
  obtain ⟨r, hr, heq⟩ := h
  obtain ⟨h1, h2⟩ := Prod.mk.injEq .. ▸ heq
  constructor
  · rw [← h1]; exact h2.symm
  · rw [← h1]; exact insertionDedup_mem.mp hr

/-! ### Claim C2: when is TBlastN attempted -/

theorem processPair_blastp_mem {ctx : BlastCtx} {tb : Bool} {pf : List (String × String)}
    {rxn uid : String} {st : RunState} {hit : Bool} {st' : RunState} {evs : List Event}
    (hrun : processPair ctx tb pf rxn uid st = (hit, st', evs)) :
    ∀ r u q b, Event.blastpCall r u q b ∈ evs → r = rxn ∧ u = uid := by
  obtain ⟨q0, h1, h2, wEvs, new, _, _, hevs, hfiles, _⟩ := processPair_spec hrun
  have hw : wEvs = [] ∨ wEvs = [.writeQuery (accessionOf uid) q0] := by
    rcases hfiles with ⟨_, _, hw⟩ | ⟨_, _, _, hw⟩
    · exact Or.inl hw
    · exact Or.inr hw
  intro r u q b hmem
  subst hevs
  rcases hw with rfl | rfl <;> cases h1 <;> cases tb <;> simp_all

theorem processPair_tblastn_mem {ctx : BlastCtx} {tb : Bool} {pf : List (String × String)}
    {rxn uid : String} {st : RunState} {hit : Bool} {st' : RunState} {evs : List Event}
    (hrun : processPair ctx tb pf rxn uid st = (hit, st', evs)) :
    ∀ r u q b, Event.tblastnCall r u q b ∈ evs → r = rxn ∧ u = uid := by
  obtain ⟨q0, h1, h2, wEvs, new, _, _, hevs, hfiles, _⟩ := processPair_spec hrun
  have hw : wEvs = [] ∨ wEvs = [.writeQuery (accessionOf uid) q0] := by
    rcases hfiles with ⟨_, _, hw⟩ | ⟨_, _, _, hw⟩
    · exact Or.inl hw
    · exact Or.inr hw
  intro r u q b hmem
  subst hevs
  rcases hw with rfl | rfl <;> cases h1 <;> cases tb <;> simp_all

theorem processPair_pairing {ctx : BlastCtx} {tb : Bool} {pf : List (String × String)}
    {rxn uid : String} {st : RunState} {hit : Bool} {st' : RunState} {evs : List Event}
    (hrun : processPair ctx tb pf rxn uid st = (hit, st', evs)) :
    ∀ q b, Event.blastpCall rxn uid q b ∈ evs →
      ((∃ q2 b2, Event.tblastnCall rxn uid q2 b2 ∈ evs) ↔ (tb = true ∧ b = false)) := by
  obtain ⟨q0, h1, h2, wEvs, new, _, _, hevs, hfiles, _⟩ := processPair_spec hrun
  have hw : wEvs = [] ∨ wEvs = [.writeQuery (accessionOf uid) q0] := by
    rcases hfiles with ⟨_, _, hw⟩ | ⟨_, _, _, hw⟩
    · exact Or.inl hw
    · exact Or.inr hw
  intro q b hmem
  subst hevs
  have hb : b = h1 := by
    rcases hw with rfl | rfl <;> cases h1 <;> cases tb <;> simp_all
  subst hb
  rcases hw with rfl | rfl <;> cases b <;> cases tb <;> simp_all

theorem runPairs_blastp_mem {ctx : BlastCtx} {tb : Bool} {pf : List (String × String)}
    {rxn : String} :
    ∀ (uids kept : List String) (st : RunState) (r u q : String) (b : Bool),
      Event.blastpCall r u q b ∈ (runPairs ctx tb pf rxn uids kept st).2.2 →
      r = rxn ∧ u ∈ uids := by
  intro uids
  induction uids with
  | nil => intro kept st r u q b h; simp [runPairs] at h
  | cons uid rest ih =>
    intro kept st r u q b h
    rcases hpp : processPair ctx tb pf rxn uid st with ⟨hit, st1, evs1⟩
    rw [runPairs] at h
    simp only [hpp, List.mem_append] at h
    rcases h with h | h
    · obtain ⟨hr, hu⟩ := processPair_blastp_mem hpp r u q b h
      exact ⟨hr, by simp [hu]⟩
    · obtain ⟨hr, hu⟩ := ih _ _ r u q b h
      exact ⟨hr, by simp [hu]⟩

theorem runPairs_tblastn_mem {ctx : BlastCtx} {tb : Bool} {pf : List (String × String)}
    {rxn : String} :
    ∀ (uids kept : List String) (st : RunState) (r u q : String) (b : Bool),
      Event.tblastnCall r u q b ∈ (runPairs ctx tb pf rxn uids kept st).2.2 →
      r = rxn ∧ u ∈ uids := by
  intro uids
  induction uids with
  | nil => intro kept st r u q b h; simp [runPairs] at h
  | cons uid rest ih =>
    intro kept st r u q b h
    rcases hpp : processPair ctx tb pf rxn uid st with ⟨hit, st1, evs1⟩
    rw [runPairs] at h
    simp only [hpp, List.mem_append] at h
    rcases h with h | h
    · obtain ⟨hr, hu⟩ := processPair_tblastn_mem hpp r u q b h
      exact ⟨hr, by simp [hu]⟩
    · obtain ⟨hr, hu⟩ := ih _ _ r u q b h
      exact ⟨hr, by simp [hu]⟩

theorem runPairs_pairing {ctx : BlastCtx} {tb : Bool} {pf : List (String × String)}
    {rxn : String} :
    ∀ (uids kept : List String) (st : RunState), uids.Nodup →
      ∀ (u q : String) (b : Bool),
        Event.blastpCall rxn u q b ∈ (runPairs ctx tb pf rxn uids kept st).2.2 →
        ((∃ q2 b2, Event.tblastnCall rxn u q2 b2 ∈
            (runPairs ctx tb pf rxn uids kept st).2.2) ↔
          (tb = true ∧ b = false)) := by
  intro uids
  induction uids with
  | nil => intro kept st _ u q b h; simp [runPairs] at h
  | cons uid rest ih =>
    intro kept st hnod u q b h
    rcases hpp : processPair ctx tb pf rxn uid st with ⟨hit, st1, evs1⟩
    rw [runPairs] at h ⊢
    simp only [hpp, List.mem_append] at h ⊢
    have hnod1 : uid ∉ rest := (List.nodup_cons.mp hnod).1
    have hnod2 : rest.Nodup := (List.nodup_cons.mp hnod).2
    rcases h with h | h
    · obtain ⟨_, hu⟩ := processPair_blastp_mem hpp rxn u q b h
      subst hu
      have hpair := processPair_pairing hpp q b h
      constructor
      · rintro ⟨q2, b2, h2 | h2⟩
        · exact hpair.mp ⟨q2, b2, h2⟩
        · obtain ⟨_, hu2⟩ := runPairs_tblastn_mem _ _ _ _ _ _ _ h2
          exact absurd hu2 hnod1
      · intro hcond
        obtain ⟨q2, b2, h2⟩ := hpair.mpr hcond
        exact ⟨q2, b2, Or.inl h2⟩
    · obtain ⟨_, hu⟩ := runPairs_blastp_mem _ _ _ _ _ _ _ h
      have hune : u ≠ uid := fun he => hnod1 (he ▸ hu)
      have := ih _ _ hnod2 u q b h
      constructor
      · rintro ⟨q2, b2, h2 | h2⟩
        · obtain ⟨_, hu2⟩ := processPair_tblastn_mem hpp rxn u q2 b2 h2
          exact absurd hu2 hune
        · exact this.mp ⟨q2, b2, h2⟩
      · intro hcond
        obtain ⟨q2, b2, h2⟩ := this.mpr hcond
        exact ⟨q2, b2, Or.inr h2⟩

theorem runRxns_blastp_mem {ctx : BlastCtx} {tb : Bool} {pf : List (String × String)}
    {enum : String → List String → List String} :
    ∀ (d : List (String × List String)) (kept : List String) (st : RunState)
      (r u q : String) (b : Bool),
      Event.blastpCall r u q b ∈ (runRxns ctx tb pf enum d kept st).2.2 →
      ∃ pids, (r, pids) ∈ d ∧ u ∈ enum r pids := by
  intro d
  induction d with
  | nil => intro kept st r u q b h; simp [runRxns] at h
  | cons entry rest ih =>
    rcases entry with ⟨rxn0, pids0⟩
    intro kept st r u q b h
    rw [runRxns] at h
    rw [List.mem_append] at h
    rcases h with h | h
    · obtain ⟨hr, hu⟩ := runPairs_blastp_mem _ _ _ _ _ _ _ h
      subst hr
      exact ⟨pids0, List.mem_cons_self _ _, hu⟩
    · obtain ⟨pids, hmem, hu⟩ := ih _ _ r u q b h
      exact ⟨pids, List.mem_cons_of_mem _ hmem, hu⟩

theorem runRxns_tblastn_mem {ctx : BlastCtx} {tb : Bool} {pf : List (String × String)}
    {enum : String → List String → List String} :
    ∀ (d : List (String × List String)) (kept : List String) (st : RunState)
      (r u q : String) (b : Bool),
      Event.tblastnCall r u q b ∈ (runRxns ctx tb pf enum d kept st).2.2 →
      ∃ pids, (r, pids) ∈ d ∧ u ∈ enum r pids := by
  intro d
  induction d with
  | nil => intro kept st r u q b h; simp [runRxns] at h
  | cons entry rest ih =>
    rcases entry with ⟨rxn0, pids0⟩
    intro kept st r u q b h
    rw [runRxns] at h
    rw [List.mem_append] at h
    rcases h with h | h
    · obtain ⟨hr, hu⟩ := runPairs_tblastn_mem _ _ _ _ _ _ _ h
      subst hr
      exact ⟨pids0, List.mem_cons_self _ _, hu⟩
    · obtain ⟨pids, hmem, hu⟩ := ih _ _ r u q b h
      exact ⟨pids, List.mem_cons_of_mem _ hmem, hu⟩

theorem runRxns_pairing {ctx : BlastCtx} {tb : Bool} {pf : List (String × String)}
    {enum : String → List String → List String} :
    ∀ (d : List (String × List String)) (kept : List String) (st : RunState),
      (d.map Prod.fst).Nodup →
      (∀ p ∈ d, (enum p.1 p.2).Nodup) →
      ∀ (r u q : String) (b : Bool),
        Event.blastpCall r u q b ∈ (runRxns ctx tb pf enum d kept st).2.2 →
        ((∃ q2 b2, Event.tblastnCall r u q2 b2 ∈
            (runRxns ctx tb pf enum d kept st).2.2) ↔
          (tb = true ∧ b = false)) := by
  intro d
  induction d with
  | nil => intro kept st _ _ r u q b h; simp [runRxns] at h
  | cons entry rest ih =>
    rcases entry with ⟨rxn0, pids0⟩
    intro kept st hkeys hnodups r u q b h
    have hkey1 : rxn0 ∉ rest.map Prod.fst := by
      rw [List.map_cons] at hkeys
      exact (List.nodup_cons.mp hkeys).1
    have hkey2 : (rest.map Prod.fst).Nodup := by
      rw [List.map_cons] at hkeys
      exact (List.nodup_cons.mp hkeys).2
    have hnodups2 : ∀ p ∈ rest, (enum p.1 p.2).Nodup :=
      fun p hp => hnodups p (List.mem_cons_of_mem _ hp)
    rw [runRxns] at h ⊢
    rw [List.mem_append] at h
    rcases h with h | h
    · obtain ⟨hr, _⟩ := runPairs_blastp_mem _ _ _ _ _ _ _ h
      subst hr
      have hpair := runPairs_pairing _ _ _
        (hnodups (r, pids0) (List.mem_cons_self _ _)) u q b h
      constructor
      · rintro ⟨q2, b2, h2⟩
        rw [List.mem_append] at h2
        rcases h2 with h2 | h2
        · exact hpair.mp ⟨q2, b2, h2⟩
        · obtain ⟨pids, hmem, _⟩ := runRxns_tblastn_mem _ _ _ _ _ _ _ h2
          exact absurd (List.mem_map_of_mem Prod.fst hmem) hkey1
      · intro hcond
        obtain ⟨q2, b2, h2⟩ := hpair.mpr hcond
        exact ⟨q2, b2, List.mem_append.mpr (Or.inl h2)⟩
    · obtain ⟨pids, hmem, _⟩ := runRxns_blastp_mem _ _ _ _ _ _ _ h
      have hrne : r ≠ rxn0 := by
        intro he
        subst he
        exact hkey1 (List.mem_map_of_mem Prod.fst hmem)
      have hih := ih _ _ hkey2 hnodups2 r u q b h
      constructor
      · rintro ⟨q2, b2, h2⟩
        rw [List.mem_append] at h2
        rcases h2 with h2 | h2
        · obtain ⟨hr2, _⟩ := runPairs_tblastn_mem _ _ _ _ _ _ _ h2
          exact absurd hr2 hrne
        · exact hih.mp ⟨q2, b2, h2⟩
      · intro hcond
        obtain ⟨q2, b2, h2⟩ := hih.mpr hcond
        exact ⟨q2, b2, List.mem_append.mpr (Or.inr h2)⟩

theorem blastpCall_notin_preEvents (ps : PadmetSpec) (rxn_list : List String)
    (c r u q : String) (b : Bool) :
    Event.blastpCall r u q b ∉
      (buildUniprotDict ps [] rxn_list).2 ++ [.summaryWrite c] := by
  rw [buildUniprotDict_events]
  simp [List.mem_append, List.mem_map]

theorem tblastnCall_notin_preEvents (ps : PadmetSpec) (rxn_list : List String)
    (c r u q : String) (b : Bool) :
    Event.tblastnCall r u q b ∉
      (buildUniprotDict ps [] rxn_list).2 ++ [.summaryWrite c] := by
  rw [buildUniprotDict_events]
  simp [List.mem_append, List.mem_map]

/-- **C2.** During a run, TBlastN is invoked for a pair `(rxn, uid)` iff a
secondary target (`species_genome`) was configured **and** the Blastp stage
for that pair returned no hit.  `b` is the Blastp outcome recorded in that
pair's (unique) `blastpCall` event. -/
theorem C2_tblastn_iff (ctx : BlastCtx) (enum : String → List String → List String)
    (rxn_list : List String) (ps : PadmetSpec) (pf : List (String × String))
    (genome : Option String) (fs0 : List (String × String)) (henum : EnumOk enum) :
    ∀ (rxn uid q : String) (b : Bool),
      Event.blastpCall rxn uid q b ∈
        (validation_blastp ctx enum rxn_list ps pf genome fs0).trace →
      ((∃ q2 b2, Event.tblastnCall rxn uid q2 b2 ∈
          (validation_blastp ctx enum rxn_list ps pf genome fs0).trace) ↔
        (genome.isSome = true ∧ b = false)) := by
  intro rxn uid q b hmem
  rw [validation_blastp_trace] at hmem ⊢
  rw [List.mem_append] at hmem
  rcases hmem with hmem | hmem
  · exact absurd hmem (blastpCall_notin_preEvents ps rxn_list _ rxn uid q b)
  · have hkeys := buildUniprotDict_keys_nodup ps rxn_list
    have hnodups : ∀ p ∈ (buildUniprotDict ps [] rxn_list).1, (enum p.1 p.2).Nodup := by
      intro p hp
      rcases p with ⟨r0, pids0⟩
      obtain ⟨hpid, _⟩ := buildUniprotDict_entry_mem hp
      subst hpid
      exact ((henum r0 _).nodup_iff).mpr (get_uniprot_ids_from_rxn_nodup r0 ps)
    have hpair := runRxns_pairing _ [] ⟨fs0, []⟩ hkeys hnodups rxn uid q b hmem
    constructor
    · rintro ⟨q2, b2, h2⟩
      rw [List.mem_append] at h2
      rcases h2 with h2 | h2
      · exact absurd h2 (tblastnCall_notin_preEvents ps rxn_list _ rxn uid q2 b2)
      · exact hpair.mp ⟨q2, b2, h2⟩
    · intro hc
      obtain ⟨q2, b2, h2⟩ := hpair.mpr hc
      exact ⟨q2, b2, List.mem_append.mpr (Or.inr h2)⟩

/-- Witness for C2: at the concrete run, the Blastp hit for the only pair,
and no TBlastN event exists (no secondary target was configured). -/
theorem C2_tblastn_iff_witness :
    EnumOk enumId ∧
    Event.blastpCall "R1" "UNIPROT:P1" (">" ++ "P1" ++ "\n" ++ "MKT" ++ "\n") true ∈
      (validation_blastp ctxHit enumId ["R1"] psW pfW none []).trace ∧
    ((∃ q2 b2, Event.tblastnCall "R1" "UNIPROT:P1" q2 b2 ∈
        (validation_blastp ctxHit enumId ["R1"] psW pfW none []).trace) ↔
      ((none : Option String).isSome = true ∧ true = false)) :=
  ⟨fun _ l => List.Perm.refl l, by decide,
   C2_tblastn_iff ctxHit enumId ["R1"] psW pfW none []
     (fun _ l => List.Perm.refl l) "R1" "UNIPROT:P1"
     (">" ++ "P1" ++ "\n" ++ "MKT" ++ "\n") true (by decide)⟩

/-! ### Claim C3: what keys the sequence lookup -/

/-- **C3 counterexample.** The spec says sequence lookup is keyed by the
accession portion of a ProteinID.  It is not: `get_uniprot_seq` looks up the
**full tagged id** (line 155, `prot_fasta[uni_id]`), so with an archive
keyed by the accession `P12345`, the lookup for `UNIPROT:P12345` misses and
returns `""` instead of the stored sequence. -/
theorem C3_counterexample :
    lookup? "P12345" [("P12345", "MKT")] = some "MKT" ∧
    get_uniprot_seq ("UNIPROT" ++ ":" ++ "P12345") [("P12345", "MKT")] = "" ∧
    ¬ get_uniprot_seq ("UNIPROT" ++ ":" ++ "P12345") [("P12345", "MKT")] = "MKT" := by
  decide

/-- **C3 amended.** Sequence resolution is keyed by the full tagged
ProteinID, not by its accession: `get_uniprot_seq uid` returns exactly the
archive entry stored under `uid` itself (and `""` on a miss).  The accession
portion keys only the query-file cache and the result rows. -/
theorem C3_lookup_by_full_id (pf : List (String × String)) (uid : String) :
    (∀ seq, lookup? uid pf = some seq → get_uniprot_seq uid pf = seq) ∧
    (lookup? uid pf = none → get_uniprot_seq uid pf = "") := by
  constructor
  · intro seq h
    unfold get_uniprot_seq
    rw [h]
  · intro h
    unfold get_uniprot_seq
    rw [h]

theorem C3_lookup_by_full_id_witness :
    lookup? "UNIPROT:P1" pfW = some "MKT" ∧ get_uniprot_seq "UNIPROT:P1" pfW = "MKT" :=
  ⟨by decide, (C3_lookup_by_full_id pfW "UNIPROT:P1").1 "MKT" (by decide)⟩

/-! ### Claims C4 and C7: missing sequence / missing annotation -/

theorem processPair_call_exists {ctx : BlastCtx} {tb : Bool} {pf : List (String × String)}
    {rxn uid : String} {st : RunState} {hit : Bool} {st' : RunState} {evs : List Event}
    (hrun : processPair ctx tb pf rxn uid st = (hit, st', evs)) :
    (∃ q b, Event.blastpCall rxn uid q b ∈ evs) ∧
    Event.seqLookup uid (lookup? uid pf).isSome ∈ evs := by
  obtain ⟨q0, h1, _, wEvs, _, _, _, hevs, _⟩ := processPair_spec hrun
  subst hevs
  constructor
  · exact ⟨q0, h1, by simp⟩
  · simp

theorem runPairs_call_exists {ctx : BlastCtx} {tb : Bool} {pf : List (String × String)}
    {rxn : String} :
    ∀ (uids kept : List String) (st : RunState) (uid : String), uid ∈ uids →
      (∃ q b, Event.blastpCall rxn uid q b ∈ (runPairs ctx tb pf rxn uids kept st).2.2) ∧
      Event.seqLookup uid (lookup? uid pf).isSome ∈
        (runPairs ctx tb pf rxn uids kept st).2.2 := by
  intro uids
  induction uids with
  | nil => intro kept st uid h; exact absurd h (List.not_mem_nil uid)
  | cons uid0 rest ih =>
    intro kept st uid h
    rcases hpp : processPair ctx tb pf rxn uid0 st with ⟨hit, st1, evs1⟩
    rw [runPairs]
    simp only [hpp, List.mem_append]
    rcases List.mem_cons.mp h with rfl | h
    · obtain ⟨⟨q, b, hb⟩, hs⟩ := processPair_call_exists hpp
      exact ⟨⟨q, b, Or.inl hb⟩, Or.inl hs⟩
    · obtain ⟨⟨q, b, hb⟩, hs⟩ := ih _ _ uid h
      exact ⟨⟨q, b, Or.inr hb⟩, Or.inr hs⟩

theorem runRxns_call_exists {ctx : BlastCtx} {tb : Bool} {pf : List (String × String)}
    {enum : String → List String → List String} :
    ∀ (d : List (String × List String)) (kept : List String) (st : RunState)
      (rxn : String) (pids : List String), (rxn, pids) ∈ d →
      ∀ uid ∈ enum rxn pids,
        (∃ q b, Event.blastpCall rxn uid q b ∈ (runRxns ctx tb pf enum d kept st).2.2) ∧
        Event.seqLookup uid (lookup? uid pf).isSome ∈
          (runRxns ctx tb pf enum d kept st).2.2 := by
  intro d
  induction d with
  | nil => intro kept st rxn pids h; exact absurd h (List.not_mem_nil _)
  | cons entry rest ih =>
    intro kept st rxn pids h uid huid
    rw [runRxns]
    simp only [List.mem_append]
    rcases List.mem_cons.mp h with rfl | h
    · obtain ⟨⟨q, b, hb⟩, hs⟩ := runPairs_call_exists (enum rxn pids) kept st uid huid
      exact ⟨⟨q, b, Or.inl hb⟩, Or.inl hs⟩
    · obtain ⟨⟨q, b, hb⟩, hs⟩ := ih _ _ rxn pids h uid huid
      exact ⟨⟨q, b, Or.inr hb⟩, Or.inr hs⟩

/-- **C4.** A ProteinID whose id is absent from the reference archive
resolves to the empty sequence (`get_uniprot_seq` is total: the `KeyError`
is caught, a warning is logged — the `seqLookup _ false` event — and the run
continues), and the pair is still submitted to the Blastp stage (a
`blastpCall` event exists for it) instead of being skipped as an automatic
miss. -/
theorem C4_missing_sequence (ctx : BlastCtx) (enum : String → List String → List String)
    (rxn_list : List String) (ps : PadmetSpec) (pf : List (String × String))
    (genome : Option String) (fs0 : List (String × String))
    (rxn : String) (pids : List String) (uid : String)
    (hentry : (rxn, pids) ∈ (validation_blastp ctx enum rxn_list ps pf genome fs0).uniprotDict)
    (huid : uid ∈ enum rxn pids) (hmiss : lookup? uid pf = none) :
    get_uniprot_seq uid pf = "" ∧
    Event.seqLookup uid false ∈ (validation_blastp ctx enum rxn_list ps pf genome fs0).trace ∧
    (∃ q b, Event.blastpCall rxn uid q b ∈
      (validation_blastp ctx enum rxn_list ps pf genome fs0).trace) := by
  rw [validation_blastp_dict] at hentry
  have hcalls := @runRxns_call_exists ctx genome.isSome pf enum
    _ [] ⟨fs0, []⟩ rxn pids hentry uid huid
  have hflag : (lookup? uid pf).isSome = false := by rw [hmiss]; rfl
  rw [hflag] at hcalls
  refine ⟨by unfold get_uniprot_seq; rw [hmiss], ?_, ?_⟩
  · rw [validation_blastp_trace]
    exact List.mem_append.mpr (Or.inr hcalls.2)
  · obtain ⟨q, b, hb⟩ := hcalls.1
    rw [validation_blastp_trace]
    exact ⟨q, b, List.mem_append.mpr (Or.inr hb)⟩

/-- Engine that never matches, for witnesses. -/
def ctx0W : BlastCtx := ⟨fun _ => "", fun _ => ""⟩

/-- Padmet store and archive for the C4 witness: `R2` maps to `UNIPROT:P9`,
whose sequence is missing from the archive. -/
def psMiss : PadmetSpec := ⟨[("R2_xrefs", [("UNIPROT_70", ["P9"])])]⟩

theorem C4_missing_sequence_witness :
    (("R2", ["UNIPROT:P9"]) ∈
        (validation_blastp ctx0W enumId ["R2"] psMiss [] none []).uniprotDict ∧
      "UNIPROT:P9" ∈ enumId "R2" ["UNIPROT:P9"] ∧
      lookup? "UNIPROT:P9" ([] : List (String × String)) = none) ∧
    (get_uniprot_seq "UNIPROT:P9" [] = "" ∧
      Event.seqLookup "UNIPROT:P9" false ∈
        (validation_blastp ctx0W enumId ["R2"] psMiss [] none []).trace ∧
      (∃ q b, Event.blastpCall "R2" "UNIPROT:P9" q b ∈
        (validation_blastp ctx0W enumId ["R2"] psMiss [] none []).trace)) :=
  ⟨⟨by decide, by decide, rfl⟩,
   C4_missing_sequence ctx0W enumId ["R2"] psMiss [] none [] "R2" ["UNIPROT:P9"]
     "UNIPROT:P9" (by decide) (by decide) rfl⟩

theorem runPairs_kept_sub {ctx : BlastCtx} {tb : Bool} {pf : List (String × String)}
    {rxn : String} :
    ∀ (uids kept : List String) (st : RunState) (r : String),
      r ∈ (runPairs ctx tb pf rxn uids kept st).1 → r ∈ kept ∨ r = rxn := by
  intro uids
  induction uids with
  | nil => intro kept st r h; exact Or.inl (by simpa [runPairs] using h)
  | cons uid rest ih =>
    intro kept st r h
    rcases hpp : processPair ctx tb pf rxn uid st with ⟨hit, st1, evs1⟩
    rw [runPairs] at h
    simp only [hpp] at h
    rcases ih _ _ r h with h1 | h1
    · cases hit with
      | true =>
        rw [if_pos rfl] at h1
        rcases setAdd_mem.mp h1 with h2 | h2
        · exact Or.inl h2
        · exact Or.inr h2
      | false =>
        rw [if_neg (by simp : ¬ (false = true))] at h1
        exact Or.inl h1
    · exact Or.inr h1

theorem runRxns_kept_sub {ctx : BlastCtx} {tb : Bool} {pf : List (String × String)}
    {enum : String → List String → List String} :
    ∀ (d : List (String × List String)) (kept : List String) (st : RunState) (r : String),
      r ∈ (runRxns ctx tb pf enum d kept st).1 →
      r ∈ kept ∨ ∃ pids, (r, pids) ∈ d ∧ enum r pids ≠ [] := by
  intro d
  induction d with
  | nil => intro kept st r h; exact Or.inl (by simpa [runRxns] using h)
  | cons entry rest ih =>
    rcases entry with ⟨rxn0, pids0⟩
    intro kept st r h
    rw [runRxns] at h
    rcases ih _ _ r h with h1 | ⟨pids, hmem, hne⟩
    · cases henum0 : enum rxn0 pids0 with
      | nil =>
        rw [henum0] at h1
        rw [runPairs] at h1
        exact Or.inl h1
      | cons u0 us =>
        rw [henum0] at h1
        rcases runPairs_kept_sub _ _ _ r h1 with h2 | h2
        · exact Or.inl h2
        · subst h2
          exact Or.inr ⟨pids0, List.mem_cons_self _ _, by rw [henum0]; simp⟩
    · exact Or.inr ⟨pids, List.mem_cons_of_mem _ hmem, hne⟩

/-- **C7.** A reaction whose `<rxn>_xrefs` node is absent from the padmet
store maps to the empty id set (the `KeyError` is caught, not propagated),
the condition is logged (the `mapCall _ false` event), no alignment is ever
attempted for the reaction, and it never enters the returned set. -/
theorem C7_missing_annotation (ctx : BlastCtx) (enum : String → List String → List String)
    (rxn_list : List String) (ps : PadmetSpec) (pf : List (String × String))
    (genome : Option String) (fs0 : List (String × String)) (henum : EnumOk enum)
    (rxn : String) (hmiss : lookup? (rxn ++ "_xrefs") ps.dicOfNode = none) :
    get_uniprot_ids_from_rxn rxn ps = [] ∧
    (rxn ∈ rxn_list →
      Event.mapCall rxn false ∈ (validation_blastp ctx enum rxn_list ps pf genome fs0).trace) ∧
    (∀ u q b,
      Event.blastpCall rxn u q b ∉ (validation_blastp ctx enum rxn_list ps pf genome fs0).trace ∧
      Event.tblastnCall rxn u q b ∉
        (validation_blastp ctx enum rxn_list ps pf genome fs0).trace) ∧
    rxn ∉ (validation_blastp ctx enum rxn_list ps pf genome fs0).kept := by
  have hids : get_uniprot_ids_from_rxn rxn ps = [] := by
    unfold get_uniprot_ids_from_rxn
    rw [hmiss]
  have henumnil : enum rxn [] = [] := List.Perm.eq_nil (henum rxn [])
  refine ⟨hids, ?_, ?_, ?_⟩
  · intro hrl
    rw [validation_blastp_trace]
    have h1 : Event.mapCall rxn ((lookup? (rxn ++ "_xrefs") ps.dicOfNode).isSome) ∈
        (buildUniprotDict ps [] rxn_list).2 := by
      rw [buildUniprotDict_events]
      exact List.mem_map_of_mem _ hrl
    rw [hmiss] at h1
    exact List.mem_append.mpr (Or.inl (List.mem_append.mpr (Or.inl h1)))
  · intro u q b
    constructor
    · intro hmem
      rw [validation_blastp_trace] at hmem
      rcases List.mem_append.mp hmem with hmem | hmem
      · exact absurd hmem (blastpCall_notin_preEvents ps rxn_list _ rxn u q b)
      · obtain ⟨pids, hentry, hu⟩ := runRxns_blastp_mem _ _ _ _ _ _ _ hmem
        obtain ⟨hpids, _⟩ := buildUniprotDict_entry_mem hentry
        rw [hpids, hids, henumnil] at hu
        exact absurd hu (List.not_mem_nil u)
    · intro hmem
      rw [validation_blastp_trace] at hmem
      rcases List.mem_append.mp hmem with hmem | hmem
      · exact absurd hmem (tblastnCall_notin_preEvents ps rxn_list _ rxn u q b)
      · obtain ⟨pids, hentry, hu⟩ := runRxns_tblastn_mem _ _ _ _ _ _ _ hmem
        obtain ⟨hpids, _⟩ := buildUniprotDict_entry_mem hentry
        rw [hpids, hids, henumnil] at hu
        exact absurd hu (List.not_mem_nil u)
  · intro hk
    rw [validation_blastp_kept] at hk
    rcases runRxns_kept_sub _ _ _ rxn hk with h1 | ⟨pids, hentry, hne⟩
    · exact absurd h1 (List.not_mem_nil rxn)
    · obtain ⟨hpids, _⟩ := buildUniprotDict_entry_mem hentry
      rw [hpids, hids, henumnil] at hne
      exact hne rfl

/-- Empty padmet store for the C7 witness. -/
def psEmptyW : PadmetSpec := ⟨[]⟩

theorem C7_missing_annotation_witness :
    lookup? ("R0" ++ "_xrefs") psEmptyW.dicOfNode = none ∧
    (get_uniprot_ids_from_rxn "R0" psEmptyW = [] ∧
      Event.mapCall "R0" false ∈
        (validation_blastp ctx0W enumId ["R0"] psEmptyW [] none []).trace ∧
      "R0" ∉ (validation_blastp ctx0W enumId ["R0"] psEmptyW [] none []).kept) :=
  ⟨rfl,
   have h := C7_missing_annotation ctx0W enumId ["R0"] psEmptyW [] none []
     (fun _ l => List.Perm.refl l) "R0" rfl
   ⟨h.1, h.2.1 (by decide), h.2.2.2⟩⟩

/-! ### Claims C5 and C9: the per-accession query-file cache -/

/-- The `writeQuery` events for accession `a` in a trace. -/
def writesFor (a : String) (tr : List Event) : List Event :=
  tr.filter (fun e => match e with
    | .writeQuery a2 _ => a2 == a
    | _ => false)

theorem writesFor_mem {a : String} {tr : List Event} {e : Event}
    (h : e ∈ writesFor a tr) : ∃ c, e = .writeQuery a c ∧ Event.writeQuery a c ∈ tr := by
  unfold writesFor at h
  rw [List.mem_filter] at h
  obtain ⟨hmem, hpred⟩ := h
  cases e <;> simp at hpred
  next a2 c =>
    subst hpred
    exact ⟨c, rfl, hmem⟩

theorem writesFor_append (a : String) (t1 t2 : List Event) :
    writesFor a (t1 ++ t2) = writesFor a t1 ++ writesFor a t2 := by
  unfold writesFor
  rw [List.filter_append]

/-- Cache behaviour of a trace segment `evs` taking the file state from `st`
to `st'`: entries persist, a write happens only for an absent file and fixes
its final content, every entry is initial or was written, every engine call
submits the cached content of its accession, and each accession is written
at most once (never if already cached). -/
def FilesSpec (st st' : RunState) (evs : List Event) : Prop :=
  (∀ a c, lookup? a st.seqFiles = some c → lookup? a st'.seqFiles = some c) ∧
  (∀ a c, Event.writeQuery a c ∈ evs →
    lookup? a st.seqFiles = none ∧ lookup? a st'.seqFiles = some c) ∧
  (∀ a c, lookup? a st'.seqFiles = some c →
    lookup? a st.seqFiles = some c ∨ Event.writeQuery a c ∈ evs) ∧
  (∀ r u q b, (Event.blastpCall r u q b ∈ evs ∨ Event.tblastnCall r u q b ∈ evs) →
    lookup? (accessionOf u) st'.seqFiles = some q) ∧
  (∀ a, (writesFor a evs).length ≤ (if (lookup? a st.seqFiles).isSome then 0 else 1))

theorem lookup?_append_elim {β : Type} {k : String} {l1 l2 : List (String × β)} {v : β}
    (h : lookup? k (l1 ++ l2) = some v) :
    lookup? k l1 = some v ∨ (lookup? k l1 = none ∧ lookup? k l2 = some v) := by
  cases hl : lookup? k l1 with
  | some c =>
    rw [lookup?_append_some l2 hl] at h
    injection h with h
    subst h
    exact Or.inl rfl
  | none =>
    rw [lookup?_append_none l2 hl] at h
    exact Or.inr ⟨rfl, h⟩

theorem FilesSpec_nil (st : RunState) : FilesSpec st st [] := by
  refine ⟨fun a c h => h, ?_, fun a c h => Or.inl h, ?_, ?_⟩
  · intro a c h; exact absurd h (List.not_mem_nil _)
  · intro r u q b h
    rcases h with h | h <;> exact absurd h (List.not_mem_nil _)
  · intro a
    simp [writesFor]

theorem FilesSpec_comp {st st1 st2 : RunState} {evs1 evs2 : List Event}
    (h1 : FilesSpec st st1 evs1) (h2 : FilesSpec st1 st2 evs2) :
    FilesSpec st st2 (evs1 ++ evs2) := by
  obtain ⟨m1, w1, p1, c1, n1⟩ := h1
  obtain ⟨m2, w2, p2, c2, n2⟩ := h2
  refine ⟨fun a c h => m2 a c (m1 a c h), ?_, ?_, ?_, ?_⟩
  · intro a c h
    rcases List.mem_append.mp h with h | h
    · obtain ⟨ha, hb⟩ := w1 a c h
      exact ⟨ha, m2 a c hb⟩
    · obtain ⟨ha, hb⟩ := w2 a c h
      refine ⟨?_, hb⟩
      cases hl : lookup? a st.seqFiles with
      | none => rfl
      | some v => exact absurd (m1 a v hl) (by rw [ha]; simp)
  · intro a c h
    rcases p2 a c h with h | h
    · rcases p1 a c h with h | h
      · exact Or.inl h
      · exact Or.inr (List.mem_append.mpr (Or.inl h))
    · exact Or.inr (List.mem_append.mpr (Or.inr h))
  · intro r u q b h
    rcases h with h | h <;> rcases List.mem_append.mp h with h | h
    · exact m2 _ _ (c1 r u q b (Or.inl h))
    · exact c2 r u q b (Or.inl h)
    · exact m2 _ _ (c1 r u q b (Or.inr h))
    · exact c2 r u q b (Or.inr h)
  · intro a
    rw [writesFor_append, List.length_append]
    cases hl : lookup? a st.seqFiles with
    | some v =>
      have hrhs : (if (some v : Option String).isSome = true then (0 : Nat) else 1) = 0 := rfl
      rw [hrhs]
      have ha1 : (writesFor a evs1).length ≤ 0 := by simpa [hl] using n1 a
      have ha2 : (writesFor a evs2).length ≤ 0 := by simpa [m1 a v hl] using n2 a
      omega
    | none =>
      have hrhs : (if (none : Option String).isSome = true then (0 : Nat) else 1) = 1 := rfl
      rw [hrhs]
      cases hl1 : lookup? a st1.seqFiles with
      | some v =>
        have ha1 : (writesFor a evs1).length ≤ 1 := by simpa [hl] using n1 a
        have ha2 : (writesFor a evs2).length ≤ 0 := by simpa [hl1] using n2 a
        omega
      | none =>
        have hz : writesFor a evs1 = [] := by
          rw [List.eq_nil_iff_forall_not_mem]
          intro e he
          obtain ⟨c, _, hc⟩ := writesFor_mem he
          have hsome := (w1 a c hc).2
          rw [hl1] at hsome
          exact absurd hsome (by simp)
        have ha2 : (writesFor a evs2).length ≤ 1 := by simpa [hl1] using n2 a
        rw [hz]
        simpa using ha2

theorem lookup?_singleton_elim {β : Type} {a k : String} {v c : β}
    (h : lookup? a [(k, v)] = some c) : a = k ∧ c = v := by
  unfold lookup? at h
  split at h <;> rename_i hk
  · refine ⟨hk, ?_⟩
    injection h with h
    exact h.symm
  · simp [lookup?] at h

theorem processPair_filesSpec {ctx : BlastCtx} {tb : Bool} {pf : List (String × String)}
    {rxn uid : String} {st : RunState} {hit : Bool} {st' : RunState} {evs : List Event}
    (hrun : processPair ctx tb pf rxn uid st = (hit, st', evs)) :
    FilesSpec st st' evs := by
  obtain ⟨q0, h1, h2, wEvs, new, hrows, hlkf, hevs, hfiles, _⟩ := processPair_spec hrun
  have htEv : ∀ e ∈ (if h1 then [] else
      if tb then [Event.tblastnCall rxn uid q0 h2] else ([] : List Event)),
      e = Event.tblastnCall rxn uid q0 h2 := by
    cases h1 <;> cases tb <;> simp
  rcases hfiles with ⟨hpres, hst, hwE⟩ | ⟨habs, hq, hst, hwE⟩
  · subst hevs
    subst hwE
    refine ⟨?_, ?_, ?_, ?_, ?_⟩
    · intro a c h
      rw [hst]
      exact h
    · intro a c h
      rcases List.mem_cons.mp h with h | h
      · exact absurd h (by simp)
      · rw [List.nil_append] at h
        rcases List.mem_cons.mp h with h | h
        · exact absurd h (by simp)
        · exact absurd (htEv _ h) (by simp)
    · intro a c h
      rw [hst] at h
      exact Or.inl h
    · intro r u q b h
      have huq : u = uid ∧ q = q0 := by
        rcases h with h | h
        · rcases List.mem_cons.mp h with h | h
          · exact absurd h (by simp)
          · rw [List.nil_append] at h
            rcases List.mem_cons.mp h with h | h
            · simp only [Event.blastpCall.injEq] at h
              exact ⟨h.2.1, h.2.2.1⟩
            · exact absurd (htEv _ h) (by simp)
        · rcases List.mem_cons.mp h with h | h
          · exact absurd h (by simp)
          · rw [List.nil_append] at h
            rcases List.mem_cons.mp h with h | h
            · exact absurd h (by simp)
            · have := htEv _ h
              simp only [Event.tblastnCall.injEq] at this
              exact ⟨this.2.1, this.2.2.1⟩
      rw [huq.1, huq.2]
      exact hlkf
    · intro a
      have hz : writesFor a (Event.seqLookup uid (lookup? uid pf).isSome ::
          ([] ++ Event.blastpCall rxn uid q0 h1 :: (if h1 then [] else
            if tb then [Event.tblastnCall rxn uid q0 h2] else []))) = [] := by
        cases h1 <;> cases tb <;> simp [writesFor]
      rw [hz]
      simp
  · subst hevs
    subst hwE
    refine ⟨?_, ?_, ?_, ?_, ?_⟩
    · intro a c h
      rw [hst]
      exact lookup?_append_some _ h
    · intro a c h
      have heq : Event.writeQuery a c = Event.writeQuery (accessionOf uid) q0 := by
        rcases List.mem_cons.mp h with h | h
        · exact absurd h (by simp)
        · rcases List.mem_append.mp h with h | h
          · exact List.mem_singleton.mp h
          · rcases List.mem_cons.mp h with h | h
            · exact absurd h (by simp)
            · exact absurd (htEv _ h) (by simp)
      simp only [Event.writeQuery.injEq] at heq
      rw [heq.1, heq.2]
      exact ⟨habs, hlkf⟩
    · intro a c h
      rw [hst] at h
      rcases lookup?_append_elim h with h | ⟨hnone, hsing⟩
      · exact Or.inl h
      · obtain ⟨ha, hc⟩ := lookup?_singleton_elim hsing
        subst ha
        subst hc
        exact Or.inr (by simp)
    · intro r u q b h
      have huq : u = uid ∧ q = q0 := by
        rcases h with h | h
        · rcases List.mem_cons.mp h with h | h
          · exact absurd h (by simp)
          · rcases List.mem_append.mp h with h | h
            · exact absurd (List.mem_singleton.mp h) (by simp)
            · rcases List.mem_cons.mp h with h | h
              · simp only [Event.blastpCall.injEq] at h
                exact ⟨h.2.1, h.2.2.1⟩
              · exact absurd (htEv _ h) (by simp)
        · rcases List.mem_cons.mp h with h | h
          · exact absurd h (by simp)
          · rcases List.mem_append.mp h with h | h
            · exact absurd (List.mem_singleton.mp h) (by simp)
            · rcases List.mem_cons.mp h with h | h
              · exact absurd h (by simp)
              · have := htEv _ h
                simp only [Event.tblastnCall.injEq] at this
                exact ⟨this.2.1, this.2.2.1⟩
      rw [huq.1, huq.2]
      exact hlkf
    · intro a
      by_cases hac : a = accessionOf uid
      · have hone : writesFor a (Event.seqLookup uid (lookup? uid pf).isSome ::
            ([Event.writeQuery (accessionOf uid) q0] ++
              Event.blastpCall rxn uid q0 h1 :: (if h1 then [] else
              if tb then [Event.tblastnCall rxn uid q0 h2] else []))) =
            [Event.writeQuery (accessionOf uid) q0] := by
          cases h1 <;> cases tb <;> simp [writesFor, hac]
        rw [hone, hac, habs]
        simp
      · have hz : writesFor a (Event.seqLookup uid (lookup? uid pf).isSome ::
            ([Event.writeQuery (accessionOf uid) q0] ++
              Event.blastpCall rxn uid q0 h1 :: (if h1 then [] else
              if tb then [Event.tblastnCall rxn uid q0 h2] else []))) = [] := by
          cases h1 <;> cases tb <;> simp [writesFor, Ne.symm hac]
        rw [hz]
        simp

theorem runPairs_filesSpec {ctx : BlastCtx} {tb : Bool} {pf : List (String × String)}
    {rxn : String} :
    ∀ (uids kept : List String) (st : RunState),
      FilesSpec st (runPairs ctx tb pf rxn uids kept st).2.1
        (runPairs ctx tb pf rxn uids kept st).2.2 := by
  intro uids
  induction uids with
  | nil => intro kept st; simpa [runPairs] using FilesSpec_nil st
  | cons uid rest ih =>
    intro kept st
    rcases hpp : processPair ctx tb pf rxn uid st with ⟨hit, st1, evs1⟩
    rw [runPairs]
    simp only [hpp]
    exact FilesSpec_comp (processPair_filesSpec hpp) (ih _ _)

theorem runRxns_filesSpec {ctx : BlastCtx} {tb : Bool} {pf : List (String × String)}
    {enum : String → List String → List String} :
    ∀ (d : List (String × List String)) (kept : List String) (st : RunState),
      FilesSpec st (runRxns ctx tb pf enum d kept st).2.1
        (runRxns ctx tb pf enum d kept st).2.2 := by
  intro d
  induction d with
  | nil => intro kept st; simpa [runRxns] using FilesSpec_nil st
  | cons entry rest ih =>
    intro kept st
    rw [runRxns]
    exact FilesSpec_comp (runPairs_filesSpec _ _ _) (ih _ _)

theorem writeQuery_notin_preEvents (ps : PadmetSpec) (rxn_list : List String)
    (c a c2 : String) :
    Event.writeQuery a c2 ∉
      (buildUniprotDict ps [] rxn_list).2 ++ [.summaryWrite c] := by
  rw [buildUniprotDict_events]
  simp [List.mem_append, List.mem_map]

theorem filesSpec_preEvents (ps : PadmetSpec) (rxn_list : List String) (c : String)
    (st : RunState) :
    FilesSpec st st ((buildUniprotDict ps [] rxn_list).2 ++ [.summaryWrite c]) := by
  refine ⟨fun a c h => h, ?_, fun a c h => Or.inl h, ?_, ?_⟩
  · intro a c2 h
    exact absurd h (writeQuery_notin_preEvents ps rxn_list c a c2)
  · intro r u q b h
    rcases h with h | h
    · exact absurd h (blastpCall_notin_preEvents ps rxn_list c r u q b)
    · exact absurd h (tblastnCall_notin_preEvents ps rxn_list c r u q b)
  · intro a
    have hz : writesFor a ((buildUniprotDict ps [] rxn_list).2 ++ [.summaryWrite c]) = [] := by
      rw [List.eq_nil_iff_forall_not_mem]
      intro e he
      obtain ⟨c2, _, hc⟩ := writesFor_mem he
      exact writeQuery_notin_preEvents ps rxn_list c a c2 hc
    rw [hz]
    simp

/-- The whole run satisfies the cache specification, from the initial state
(`sequences/` content `fs0`, empty hits table) to the final state. -/
theorem validation_filesSpec (ctx : BlastCtx) (enum : String → List String → List String)
    (rxn_list : List String) (ps : PadmetSpec) (pf : List (String × String))
    (genome : Option String) (fs0 : List (String × String)) :
    FilesSpec ⟨fs0, []⟩ (validation_blastp ctx enum rxn_list ps pf genome fs0).finalState
      (validation_blastp ctx enum rxn_list ps pf genome fs0).trace := by
  rw [validation_blastp_finalState, validation_blastp_trace]
  exact FilesSpec_comp (filesSpec_preEvents ps rxn_list _ _) (runRxns_filesSpec _ _ _)

/-- **C5.** Within one run each accession's query file
`sequences/<acc>.fasta` is written at most once; a write only happens when
the file does not yet exist (in particular never if `fs0` already holds it
from an earlier run), the written content is the file's content for the rest
of the run (its final content), and if the file was initially absent and any
alignment was attempted for the accession, the first attempt created it. -/
theorem C5_query_written_once (ctx : BlastCtx) (enum : String → List String → List String)
    (rxn_list : List String) (ps : PadmetSpec) (pf : List (String × String))
    (genome : Option String) (fs0 : List (String × String)) :
    ∀ acc,
      (writesFor acc (validation_blastp ctx enum rxn_list ps pf genome fs0).trace).length ≤ 1 ∧
      (∀ c, Event.writeQuery acc c ∈
          (validation_blastp ctx enum rxn_list ps pf genome fs0).trace →
        lookup? acc fs0 = none ∧
        lookup? acc (validation_blastp ctx enum rxn_list ps pf genome fs0).finalState.seqFiles =
          some c) ∧
      (lookup? acc fs0 = none →
        (∃ r u q b, accessionOf u = acc ∧
          (Event.blastpCall r u q b ∈
              (validation_blastp ctx enum rxn_list ps pf genome fs0).trace ∨
            Event.tblastnCall r u q b ∈
              (validation_blastp ctx enum rxn_list ps pf genome fs0).trace)) →
        ∃ c, Event.writeQuery acc c ∈
          (validation_blastp ctx enum rxn_list ps pf genome fs0).trace) := by
  obtain ⟨hmono, hwr, hprov, hcalls, hcnt⟩ :=
    validation_filesSpec ctx enum rxn_list ps pf genome fs0
  intro acc
  refine ⟨?_, fun c h => hwr acc c h, ?_⟩
  · have := hcnt acc
    cases hl : lookup? acc (⟨fs0, []⟩ : RunState).seqFiles with
    | some v =>
      rw [hl] at this
      refine le_trans ?_ (by norm_num : (0 : Nat) ≤ 1)
      simpa using this
    | none => rw [hl] at this; simpa using this
  · intro h0 ⟨r, u, q, b, hacc, hcall⟩
    have hq := hcalls r u q b hcall
    rw [hacc] at hq
    rcases hprov acc q hq with h | h
    · exact absurd h (by simp [h0])
    · exact ⟨q, h⟩

theorem C5_query_written_once_witness :
    (writesFor "P1" (validation_blastp ctxHit enumId ["R1"] psW pfW none []).trace).length ≤ 1 ∧
    (lookup? "P1" ([] : List (String × String)) = none ∧
      lookup? "P1" (validation_blastp ctxHit enumId ["R1"] psW pfW none []).finalState.seqFiles =
        some (">" ++ "P1" ++ "\n" ++ "MKT" ++ "\n")) :=
  ⟨(C5_query_written_once ctxHit enumId ["R1"] psW pfW none [] "P1").1,
   (C5_query_written_once ctxHit enumId ["R1"] psW pfW none [] "P1").2.1
     (">" ++ "P1" ++ "\n" ++ "MKT" ++ "\n") (by decide)⟩

/-- **C9.** The on-disk query cache is keyed by accession alone: any two
engine invocations whose ProteinIDs share an accession submit the same query
content, namely the content written at the accession's (single) cache fill
— not the invoking pair's own resolved sequence. -/
theorem C9_cache_keyed_by_accession (ctx : BlastCtx)
    (enum : String → List String → List String) (rxn_list : List String) (ps : PadmetSpec)
    (pf : List (String × String)) (genome : Option String) (fs0 : List (String × String)) :
    (∀ r1 u1 q1 b1 r2 u2 q2 b2,
      (Event.blastpCall r1 u1 q1 b1 ∈
          (validation_blastp ctx enum rxn_list ps pf genome fs0).trace ∨
        Event.tblastnCall r1 u1 q1 b1 ∈
          (validation_blastp ctx enum rxn_list ps pf genome fs0).trace) →
      (Event.blastpCall r2 u2 q2 b2 ∈
          (validation_blastp ctx enum rxn_list ps pf genome fs0).trace ∨
        Event.tblastnCall r2 u2 q2 b2 ∈
          (validation_blastp ctx enum rxn_list ps pf genome fs0).trace) →
      accessionOf u1 = accessionOf u2 → q1 = q2) ∧
    (∀ a c r u q b,
      Event.writeQuery a c ∈ (validation_blastp ctx enum rxn_list ps pf genome fs0).trace →
      (Event.blastpCall r u q b ∈
          (validation_blastp ctx enum rxn_list ps pf genome fs0).trace ∨
        Event.tblastnCall r u q b ∈
          (validation_blastp ctx enum rxn_list ps pf genome fs0).trace) →
      accessionOf u = a → q = c) := by
  obtain ⟨hmono, hwr, hprov, hcalls, hcnt⟩ :=
    validation_filesSpec ctx enum rxn_list ps pf genome fs0
  constructor
  · intro r1 u1 q1 b1 r2 u2 q2 b2 h1 h2 hacc
    have hq1 := hcalls r1 u1 q1 b1 h1
    have hq2 := hcalls r2 u2 q2 b2 h2
    rw [hacc] at hq1
    exact Option.some.inj (hq1.symm.trans hq2)
  · intro a c r u q b hw hcall hacc
    have hq := hcalls r u q b hcall
    rw [hacc] at hq
    have hc := (hwr a c hw).2
    exact Option.some.inj (hq.symm.trans hc)

/-- Store where `R` maps to both `UNIPROT:X` and `PID:X` (same accession
`X`), whose archive sequences differ. -/
def psShare : PadmetSpec := ⟨[("R_xrefs", [("UNIPROT_70", ["X"]), ("PID_70", ["X"])])]⟩

/-- Archive for the C9 witness: the two tagged ids resolve differently. -/
def pfShare : List (String × String) := [("UNIPROT:X", "AAA"), ("PID:X", "BBB")]

theorem C9_cache_keyed_by_accession_witness :
    Event.writeQuery "X" (">" ++ "X" ++ "\n" ++ "AAA" ++ "\n") ∈
      (validation_blastp ctx0W enumId ["R"] psShare pfShare none []).trace ∧
    Event.blastpCall "R" "PID:X" (">" ++ "X" ++ "\n" ++ "AAA" ++ "\n") false ∈
      (validation_blastp ctx0W enumId ["R"] psShare pfShare none []).trace ∧
    get_uniprot_seq "PID:X" pfShare = "BBB" ∧
    ¬ (">" ++ "X" ++ "\n" ++ "AAA" ++ "\n") =
      queryFileContent "X" (get_uniprot_seq "PID:X" pfShare) ∧
    (">" ++ "X" ++ "\n" ++ "AAA" ++ "\n") = (">" ++ "X" ++ "\n" ++ "AAA" ++ "\n") :=
  ⟨by decide, by decide, by decide, by decide,
   (C9_cache_keyed_by_accession ctx0W enumId ["R"] psShare pfShare none []).2
     "X" (">" ++ "X" ++ "\n" ++ "AAA" ++ "\n") "R" "PID:X"
     (">" ++ "X" ++ "\n" ++ "AAA" ++ "\n") false (by decide) (Or.inl (by decide)) (by decide)⟩

/-! ### Claim C6: the summary file -/

/-- Events the alignment loop can emit (everything except mapping calls and
the summary write). -/
def loopEvent : Event → Prop := fun e =>
  match e with
  | .mapCall _ _ => False
  | .summaryWrite _ => False
  | _ => True

theorem processPair_loopEvents {ctx : BlastCtx} {tb : Bool} {pf : List (String × String)}
    {rxn uid : String} {st : RunState} {hit : Bool} {st' : RunState} {evs : List Event}
    (hrun : processPair ctx tb pf rxn uid st = (hit, st', evs)) :
    ∀ e ∈ evs, loopEvent e := by
  obtain ⟨q0, h1, h2, wEvs, new, _, _, hevs, hfiles, _⟩ := processPair_spec hrun
  have hw : wEvs = [] ∨ wEvs = [.writeQuery (accessionOf uid) q0] := by
    rcases hfiles with ⟨_, _, hw⟩ | ⟨_, _, _, hw⟩
    · exact Or.inl hw
    · exact Or.inr hw
  have htEv : ∀ e ∈ (if h1 then [] else
      if tb then [Event.tblastnCall rxn uid q0 h2] else ([] : List Event)),
      e = Event.tblastnCall rxn uid q0 h2 := by
    cases h1 <;> cases tb <;> simp
  intro e he
  subst hevs
  rcases List.mem_cons.mp he with rfl | he
  · trivial
  · rcases List.mem_append.mp he with he | he
    · rcases hw with rfl | rfl
      · exact absurd he (List.not_mem_nil e)
      · rw [List.mem_singleton] at he
        subst he
        trivial
    · rcases List.mem_cons.mp he with rfl | he
      · trivial
      · rw [htEv e he]
        trivial

theorem runPairs_loopEvents {ctx : BlastCtx} {tb : Bool} {pf : List (String × String)}
    {rxn : String} :
    ∀ (uids kept : List String) (st : RunState),
      ∀ e ∈ (runPairs ctx tb pf rxn uids kept st).2.2, loopEvent e := by
  intro uids
  induction uids with
  | nil => intro kept st e he; simp [runPairs] at he
  | cons uid rest ih =>
    intro kept st e he
    rcases hpp : processPair ctx tb pf rxn uid st with ⟨hit, st1, evs1⟩
    rw [runPairs] at he
    simp only [hpp, List.mem_append] at he
    rcases he with he | he
    · exact processPair_loopEvents hpp e he
    · exact ih _ _ e he

theorem runRxns_loopEvents {ctx : BlastCtx} {tb : Bool} {pf : List (String × String)}
    {enum : String → List String → List String} :
    ∀ (d : List (String × List String)) (kept : List String) (st : RunState),
      ∀ e ∈ (runRxns ctx tb pf enum d kept st).2.2, loopEvent e := by
  intro d
  induction d with
  | nil => intro kept st e he; simp [runRxns] at he
  | cons entry rest ih =>
    intro kept st e he
    rw [runRxns] at he
    rcases List.mem_append.mp he with he | he
    · exact runPairs_loopEvents _ _ _ e he
    · exact ih _ _ e he

theorem foldl_setAdd_eq_append :
    ∀ (l ks : List String), l.Nodup → (∀ x ∈ l, x ∉ ks) → l.foldl setAdd ks = ks ++ l := by
  intro l
  induction l with
  | nil => intro ks _ _; simp
  | cons r rest ih =>
    intro ks hnd hdisj
    rw [List.foldl_cons]
    have hset : setAdd ks r = ks ++ [r] := by
      unfold setAdd
      rw [if_neg (hdisj r (List.mem_cons_self _ _))]
    have hdisj2 : ∀ x ∈ rest, x ∉ ks ++ [r] := by
      intro x hx
      rw [List.mem_append, List.mem_singleton]
      rintro (h | rfl)
      · exact hdisj x (List.mem_cons_of_mem _ hx) h
      · exact (List.nodup_cons.mp hnd).1 hx
    rw [hset, ih (ks ++ [r]) (List.nodup_cons.mp hnd).2 hdisj2]
    simp

theorem insertionDedup_eq_self {l : List String} (hnd : l.Nodup) :
    insertionDedup l = l := by
  unfold insertionDedup
  rw [foldl_setAdd_eq_append l [] hnd (by simp)]
  simp

/-- **C6.** `rxn_prot.tsv` is written exactly once, after the mapping loop
and before any alignment event (the trace is mapping calls, then the
summary write, then only loop events); its content is the fixed header plus
one `rxnProtLine` per input reaction (for a duplicate-free input list); a
reaction with no mapped ids gets the count `0` and an empty id list; and the
content does not depend on the engine or on the pre-existing `sequences/`
directory (it is fixed before any alignment outcome exists). -/
theorem C6_summary_written_once (ctx : BlastCtx) (enum : String → List String → List String)
    (rxn_list : List String) (ps : PadmetSpec) (pf : List (String × String))
    (genome : Option String) (fs0 : List (String × String)) (henum : EnumOk enum)
    (hnd : rxn_list.Nodup) :
    (∃ pre post,
      (validation_blastp ctx enum rxn_list ps pf genome fs0).trace =
        pre ++ .summaryWrite (validation_blastp ctx enum rxn_list ps pf genome fs0).summary ::
          post ∧
      (∀ e ∈ pre, ∃ r f, e = Event.mapCall r f) ∧
      (∀ e ∈ post, loopEvent e) ∧
      (∀ c, Event.summaryWrite c ∉ pre ∧ Event.summaryWrite c ∉ post)) ∧
    (validation_blastp ctx enum rxn_list ps pf genome fs0).summary =
      "Rxn ID\tNb prot IDs\tProt IDs (sep=;)\n" ++
        String.join (rxn_list.map
          (fun r => rxnProtLine enum r (get_uniprot_ids_from_rxn r ps))) ∧
    (∀ r, get_uniprot_ids_from_rxn r ps = [] →
      rxnProtLine enum r (get_uniprot_ids_from_rxn r ps) =
        r ++ "\t" ++ "0" ++ "\t" ++ "" ++ "\n") ∧
    (∀ (ctx2 : BlastCtx) (fs02 : List (String × String)),
      (validation_blastp ctx2 enum rxn_list ps pf genome fs02).summary =
        (validation_blastp ctx enum rxn_list ps pf genome fs0).summary) := by
  refine ⟨?_, ?_, ?_, fun ctx2 fs02 => rfl⟩
  · refine ⟨(buildUniprotDict ps [] rxn_list).2,
      (runRxns ctx genome.isSome pf enum (buildUniprotDict ps [] rxn_list).1 []
        ⟨fs0, []⟩).2.2, ?_, ?_, ?_, ?_⟩
    · rw [validation_blastp_trace, validation_blastp_summary]
      simp
    · intro e he
      rw [buildUniprotDict_events] at he
      rw [List.mem_map] at he
      obtain ⟨r, _, rfl⟩ := he
      exact ⟨r, _, rfl⟩
    · exact runRxns_loopEvents _ _ _
    · intro c
      constructor
      · intro hmem
        rw [buildUniprotDict_events] at hmem
        rw [List.mem_map] at hmem
        obtain ⟨r, _, heq⟩ := hmem
        exact absurd heq (by simp)
      · intro hmem
        exact runRxns_loopEvents _ _ _ _ hmem
  · rw [validation_blastp_summary, buildUniprotDict_eq, insertionDedup_eq_self hnd,
      create_rxn_prot_tsv, List.map_map]
    rfl
  · intro r h
    have henil : enum r [] = [] := List.Perm.eq_nil (henum r [])
    rw [h]
    unfold rxnProtLine
    rw [henil]
    rfl

theorem C6_summary_written_once_witness :
    (["R1"] : List String).Nodup ∧
    (validation_blastp ctxHit enumId ["R1"] psW pfW none []).summary =
      "Rxn ID\tNb prot IDs\tProt IDs (sep=;)\n" ++
        String.join ((["R1"] : List String).map
          (fun r => rxnProtLine enumId r (get_uniprot_ids_from_rxn r psW))) :=
  ⟨by decide,
   (C6_summary_written_once ctxHit enumId ["R1"] psW pfW none []
     (fun _ l => List.Perm.refl l) (by decide)).2.1⟩

/-! ### Claim C8: determinism of the summary across runs -/

/-- Store for the C8 counterexample: one reaction mapped to a two-element
protein-id set. -/
def psC8 : PadmetSpec := ⟨[("R_xrefs", [("UNIPROT_70", ["A", "B"])])]⟩

/-- A second valid enumeration oracle: iterates every set in reversed
order (another possible per-process hash-salt outcome). -/
def enumRev : String → List String → List String := fun _ l => l.reverse

/-- **C8 counterexample.**  Two runs of the mapping phase on byte-identical
inputs need not produce byte-identical `rxn_prot.tsv`: line 135 joins a
Python `set` of strings, whose iteration order depends on the per-process
hash salt.  Both enumeration oracles below are valid orders of the same
set, yet the produced summary contents differ. -/
theorem C8_counterexample :
    EnumOk enumId ∧ EnumOk enumRev ∧
    ¬ (validation_blastp ctx0W enumId ["R"] psC8 [] none []).summary =
      (validation_blastp ctx0W enumRev ["R"] psC8 [] none []).summary :=
  ⟨fun _ l => List.Perm.refl l, fun _ l => List.reverse_perm l, by decide⟩

/-- **C8 amended.** Re-running the mapping phase on identical inputs
reproduces the reaction dictionary (hence row order, reaction ids and
protein counts) exactly, independent of the engines and of the `sequences/`
directory; the file content is byte-identical whenever the two runs
enumerate each reaction's protein-id set in the same order (which CPython
does not guarantee across processes). -/
theorem C8_summary_determinism (enum1 enum2 : String → List String → List String)
    (ctx1 ctx2 : BlastCtx) (rxn_list : List String) (ps : PadmetSpec)
    (pf1 pf2 : List (String × String)) (g1 g2 : Option String)
    (fs01 fs02 : List (String × String)) :
    (validation_blastp ctx1 enum1 rxn_list ps pf1 g1 fs01).uniprotDict =
      (validation_blastp ctx2 enum2 rxn_list ps pf2 g2 fs02).uniprotDict ∧
    ((∀ r l, enum1 r l = enum2 r l) →
      (validation_blastp ctx1 enum1 rxn_list ps pf1 g1 fs01).summary =
        (validation_blastp ctx2 enum2 rxn_list ps pf2 g2 fs02).summary) := by
  constructor
  · rfl
  · intro h
    rw [validation_blastp_summary, validation_blastp_summary]
    unfold create_rxn_prot_tsv
    have : ∀ p ∈ (buildUniprotDict ps [] rxn_list).1,
        rxnProtLine enum1 p.1 p.2 = rxnProtLine enum2 p.1 p.2 := by
      intro p _
      unfold rxnProtLine
      rw [h p.1 p.2]
    rw [List.map_congr_left this]

/-- A third oracle, syntactically different from `enumId` but pointwise
equal to it. -/
def enumRR : String → List String → List String := fun _ l => l.reverse.reverse

theorem C8_summary_determinism_witness :
    (validation_blastp ctx0W enumId ["R"] psC8 [] none []).summary =
      (validation_blastp ctx0W enumRR ["R"] psC8 [] none []).summary :=
  (C8_summary_determinism enumId enumRR ctx0W ctx0W ["R"] psC8 [] [] none none [] []).2
    (fun _ l => (List.reverse_reverse l).symm)

/-! ### Claim C10: duplicate reactions in the input list -/

/-- The `mapCall` events for reaction `r` (one per `get_uniprot_ids_from_rxn`
invocation for `r`). -/
def mapCallsFor (r : String) (tr : List Event) : List Event :=
  tr.filter (fun e => match e with
    | .mapCall r2 _ => r2 == r
    | _ => false)

/-- The Blastp engine invocations for the pair `(r, u)`. -/
def blastpCallsFor (r u : String) (tr : List Event) : List Event :=
  tr.filter (fun e => match e with
    | .blastpCall r2 u2 _ _ => r2 == r && u2 == u
    | _ => false)

theorem mapCallsFor_mem {r : String} {tr : List Event} {e : Event}
    (h : e ∈ mapCallsFor r tr) : ∃ f, e = .mapCall r f ∧ e ∈ tr := by
  unfold mapCallsFor at h
  rw [List.mem_filter] at h
  obtain ⟨hmem, hpred⟩ := h
  cases e <;> simp at hpred
  next r2 f =>
    subst hpred
    exact ⟨f, rfl, hmem⟩

theorem blastpCallsFor_mem {r u : String} {tr : List Event} {e : Event}
    (h : e ∈ blastpCallsFor r u tr) : ∃ q b, e = .blastpCall r u q b ∧ e ∈ tr := by
  unfold blastpCallsFor at h
  rw [List.mem_filter] at h
  obtain ⟨hmem, hpred⟩ := h
  cases e <;> simp at hpred
  next r2 u2 q b =>
    obtain ⟨h1, h2⟩ := hpred
    subst h1
    subst h2
    exact ⟨q, b, rfl, hmem⟩

theorem mapCallsFor_map_length (g : String → Bool) (r : String) :
    ∀ l : List String,
      (mapCallsFor r (l.map (fun x => Event.mapCall x (g x)))).length = l.count r := by
  intro l
  induction l with
  | nil => rfl
  | cons x rest ih =>
    rw [List.map_cons]
    unfold mapCallsFor at ih ⊢
    rw [List.filter_cons]
    by_cases hx : x = r
    · subst hx
      simp [ih, List.count_cons]
    · simp [hx, ih, List.count_cons, Ne.symm hx]

theorem processPair_blastpCount {ctx : BlastCtx} {tb : Bool} {pf : List (String × String)}
    {rxn uid : String} {st : RunState} {hit : Bool} {st' : RunState} {evs : List Event}
    (hrun : processPair ctx tb pf rxn uid st = (hit, st', evs)) (r u : String) :
    (blastpCallsFor r u evs).length = if r = rxn ∧ u = uid then 1 else 0 := by
  obtain ⟨q0, h1, h2, wEvs, new, _, _, hevs, hfiles, _⟩ := processPair_spec hrun
  have hw : wEvs = [] ∨ wEvs = [.writeQuery (accessionOf uid) q0] := by
    rcases hfiles with ⟨_, _, hw⟩ | ⟨_, _, _, hw⟩
    · exact Or.inl hw
    · exact Or.inr hw
  subst hevs
  by_cases hr : r = rxn <;> by_cases hu : u = uid <;>
    rcases hw with rfl | rfl <;> cases h1 <;> cases tb <;>
    simp [blastpCallsFor, hr, hu, Ne.symm, beq_iff_eq]

theorem runPairs_blastpCount {ctx : BlastCtx} {tb : Bool} {pf : List (String × String)}
    {rxn : String} :
    ∀ (uids kept : List String) (st : RunState), uids.Nodup → ∀ r u,
      (blastpCallsFor r u (runPairs ctx tb pf rxn uids kept st).2.2).length =
        if r = rxn ∧ u ∈ uids then 1 else 0 := by
  intro uids
  induction uids with
  | nil =>
    intro kept st _ r u
    simp [runPairs, blastpCallsFor]
  | cons uid rest ih =>
    intro kept st hnd r u
    rcases hpp : processPair ctx tb pf rxn uid st with ⟨hit, st1, evs1⟩
    rw [runPairs]
    simp only [hpp]
    unfold blastpCallsFor
    rw [List.filter_append, List.length_append]
    have hhead := processPair_blastpCount hpp r u
    unfold blastpCallsFor at hhead
    have htail := ih (if hit then setAdd kept rxn else kept) st1
      (List.nodup_cons.mp hnd).2 r u
    unfold blastpCallsFor at htail
    rw [hhead, htail]
    by_cases hr : r = rxn
    · subst hr
      by_cases hu : u = uid
      · subst hu
        have hnotin : u ∉ rest := (List.nodup_cons.mp hnd).1
        simp [hnotin]
      · simp [hu, List.mem_cons, Ne.symm, fun h => hu h]
    · simp [hr]

theorem runRxns_blastpCount_le {ctx : BlastCtx} {tb : Bool} {pf : List (String × String)}
    {enum : String → List String → List String} :
    ∀ (d : List (String × List String)) (kept : List String) (st : RunState),
      (d.map Prod.fst).Nodup →
      (∀ p ∈ d, (enum p.1 p.2).Nodup) →
      ∀ r u, (blastpCallsFor r u (runRxns ctx tb pf enum d kept st).2.2).length ≤ 1 := by
  intro d
  induction d with
  | nil =>
    intro kept st _ _ r u
    simp [runRxns, blastpCallsFor]
  | cons entry rest ih =>
    rcases entry with ⟨rxn0, pids0⟩
    intro kept st hkeys hnodups r u
    have hkey1 : rxn0 ∉ rest.map Prod.fst := by
      rw [List.map_cons] at hkeys
      exact (List.nodup_cons.mp hkeys).1
    have hkey2 : (rest.map Prod.fst).Nodup := by
      rw [List.map_cons] at hkeys
      exact (List.nodup_cons.mp hkeys).2
    rw [runRxns]
    unfold blastpCallsFor
    rw [List.filter_append, List.length_append]
    have hhead := @runPairs_blastpCount ctx tb pf rxn0 (enum rxn0 pids0) kept st
      (hnodups (rxn0, pids0) (List.mem_cons_self _ _)) r u
    unfold blastpCallsFor at hhead
    rw [hhead]
    by_cases hr : r = rxn0
    · subst hr
      have htail : (List.filter (fun e => match e with
          | .blastpCall r2 u2 _ _ => r2 == r && u2 == u
          | _ => false)
          (runRxns ctx tb pf enum rest
            (runPairs ctx tb pf r (enum r pids0) kept st).1
            (runPairs ctx tb pf r (enum r pids0) kept st).2.1).2.2) = [] := by
        rw [List.eq_nil_iff_forall_not_mem]
        intro e he
        obtain ⟨q, b, rfl, hmem⟩ := blastpCallsFor_mem (r := r) (u := u) he
        obtain ⟨pids, hentry, _⟩ := runRxns_blastp_mem _ _ _ _ _ _ _ hmem
        exact hkey1 (List.mem_map_of_mem Prod.fst hentry)
      rw [htail]
      simp only [List.length_nil, Nat.add_zero]
      split <;> simp
    · have hzero : (if r = rxn0 ∧ u ∈ enum rxn0 pids0 then 1 else 0) = 0 := by
        rw [if_neg]
        rintro ⟨h, _⟩
        exact hr h
      rw [hzero]
      have hih := ih (runPairs ctx tb pf rxn0 (enum rxn0 pids0) kept st).1
        (runPairs ctx tb pf rxn0 (enum rxn0 pids0) kept st).2.1 hkey2
        (fun p hp => hnodups p (List.mem_cons_of_mem _ hp)) r u
      unfold blastpCallsFor at hih
      simpa using hih

/-- **C10 counterexample.**  A duplicated input reaction is **not** mapped
exactly once: lines 302–303 call `get_uniprot_ids_from_rxn` once per
occurrence of the reaction in `rxn_list` (overwriting the same dictionary
entry), so with input `["R", "R"]` the mapper runs twice for `R`. -/
theorem C10_counterexample :
    (mapCallsFor "R"
        (validation_blastp ctx0W enumId ["R", "R"] psEmptyW [] none []).trace).length = 2 ∧
    ¬ (mapCallsFor "R"
        (validation_blastp ctx0W enumId ["R", "R"] psEmptyW [] none []).trace).length = 1 := by
  decide

/-- **C10 amended.** Duplicate reactions in the input list are deduplicated
by the dictionary accumulator: the dictionary, the summary file and the
progress total `alignment_total` all range over the distinct reactions
(first-occurrence order), and each `(reaction, ProteinID)` pair is aligned
at most once; the mapping lookup itself, however, runs once per occurrence
of the reaction in the input list. -/
theorem C10_duplicates_deduplicated (ctx : BlastCtx)
    (enum : String → List String → List String) (rxn_list : List String) (ps : PadmetSpec)
    (pf : List (String × String)) (genome : Option String) (fs0 : List (String × String))
    (henum : EnumOk enum) :
    (validation_blastp ctx enum rxn_list ps pf genome fs0).uniprotDict =
      (insertionDedup rxn_list).map (fun r => (r, get_uniprot_ids_from_rxn r ps)) ∧
    (validation_blastp ctx enum rxn_list ps pf genome fs0).summary =
      create_rxn_prot_tsv enum
        ((insertionDedup rxn_list).map (fun r => (r, get_uniprot_ids_from_rxn r ps))) ∧
    (validation_blastp ctx enum rxn_list ps pf genome fs0).alignmentTotal =
      ((insertionDedup rxn_list).map
        (fun r => (get_uniprot_ids_from_rxn r ps).length)).sum ∧
    (∀ r, (mapCallsFor r
        (validation_blastp ctx enum rxn_list ps pf genome fs0).trace).length =
      rxn_list.count r) ∧
    (∀ r u, (blastpCallsFor r u
        (validation_blastp ctx enum rxn_list ps pf genome fs0).trace).length ≤ 1) := by
  refine ⟨?_, ?_, ?_, ?_, ?_⟩
  · rw [validation_blastp_dict, buildUniprotDict_eq]
  · rw [validation_blastp_summary, buildUniprotDict_eq]
  · rw [validation_blastp_total, buildUniprotDict_eq, List.map_map]
    rfl
  · intro r
    rw [validation_blastp_trace]
    unfold mapCallsFor
    rw [List.filter_append, List.filter_append, List.length_append, List.length_append]
    have h1 : (List.filter (fun e => match e with
        | .mapCall r2 _ => r2 == r
        | _ => false) (buildUniprotDict ps [] rxn_list).2).length = rxn_list.count r := by
      rw [buildUniprotDict_events]
      exact mapCallsFor_map_length
        (fun x => (lookup? (x ++ "_xrefs") ps.dicOfNode).isSome) r rxn_list
    have h2 : (List.filter (fun e => match e with
        | .mapCall r2 _ => r2 == r
        | _ => false)
        [Event.summaryWrite (create_rxn_prot_tsv enum (buildUniprotDict ps [] rxn_list).1)])
        = [] := rfl
    have h3 : (List.filter (fun e => match e with
        | .mapCall r2 _ => r2 == r
        | _ => false)
        (runRxns ctx genome.isSome pf enum (buildUniprotDict ps [] rxn_list).1 []
          ⟨fs0, []⟩).2.2) = [] := by
      rw [List.eq_nil_iff_forall_not_mem]
      intro e he
      obtain ⟨f, rfl, hmem⟩ := mapCallsFor_mem (r := r) he
      exact runRxns_loopEvents _ _ _ _ hmem
    rw [h1, h2, h3]
    simp
  · intro r u
    rw [validation_blastp_trace]
    unfold blastpCallsFor
    rw [List.filter_append, List.filter_append, List.length_append, List.length_append]
    have h1 : (List.filter (fun e => match e with
        | .blastpCall r2 u2 _ _ => r2 == r && u2 == u
        | _ => false) (buildUniprotDict ps [] rxn_list).2) = [] := by
      rw [List.eq_nil_iff_forall_not_mem]
      intro e he
      obtain ⟨q, b, rfl, hmem⟩ := blastpCallsFor_mem (r := r) (u := u) he
      rw [buildUniprotDict_events] at hmem
      rw [List.mem_map] at hmem
      obtain ⟨x, _, heq⟩ := hmem
      exact absurd heq (by simp)
    have h2 : (List.filter (fun e => match e with
        | .blastpCall r2 u2 _ _ => r2 == r && u2 == u
        | _ => false)
        [Event.summaryWrite (create_rxn_prot_tsv enum (buildUniprotDict ps [] rxn_list).1)])
        = [] := rfl
    have hnodups : ∀ p ∈ (buildUniprotDict ps [] rxn_list).1, (enum p.1 p.2).Nodup := by
      intro p hp
      rcases p with ⟨r0, pids0⟩
      obtain ⟨hpid, _⟩ := buildUniprotDict_entry_mem hp
      subst hpid
      exact ((henum r0 _).nodup_iff).mpr (get_uniprot_ids_from_rxn_nodup r0 ps)
    have h3 := @runRxns_blastpCount_le ctx genome.isSome pf enum
      (buildUniprotDict ps [] rxn_list).1 []
      (⟨fs0, []⟩ : RunState) (buildUniprotDict_keys_nodup ps rxn_list) hnodups r u
    unfold blastpCallsFor at h3
    rw [h1, h2]
    simpa using h3

theorem C10_duplicates_deduplicated_witness :
    EnumOk enumId ∧
    (mapCallsFor "R"
        (validation_blastp ctx0W enumId ["R", "R"] psEmptyW [] none []).trace).length =
      (["R", "R"] : List String).count "R" :=
  ⟨fun _ l => List.Perm.refl l,
   (C10_duplicates_deduplicated ctx0W enumId ["R", "R"] psEmptyW [] none []
     (fun _ l => List.Perm.refl l)).2.2.2.1 "R"⟩

end Meneval
